import Mathlib

/-!
# brainflayer.c : candidate-to-hash160 pipeline

A shallow embedding of `src/brainflayer.c`.  Bytes are natural numbers, buffers are
lists of bytes, C strings are buffers read up to their first NUL.  The static
scratch buffers of the C file are the fields of `Globals`; every function that
touches them takes and returns a `Globals`.  Code the file calls but does not
contain (OpenSSL digests, the precomputed multiplication, the hex decoder, the
KDFs, the bloom probe) is collected in `Ext` and stays a parameter.  A step whose
C behaviour is undefined (a store or a read outside its buffer) yields `none`.
-/

namespace Brainflayer

abbrev Bytes := List Nat

/-! ## C memory and integer helpers -/

/-- Length of the C string that starts a buffer: the number of bytes before the first NUL. -/
def strlen : Bytes → Nat
  | [] => 0
  | b :: bs => if b = 0 then 0 else strlen bs + 1

/-- The C string that starts a buffer, which is what the `%s` conversion prints. -/
def cstr (buf : Bytes) : Bytes := buf.take (strlen buf)

/-- Read `n` bytes from the start of a buffer; `none` when the read leaves the buffer. -/
def readBytes (buf : Bytes) (n : Nat) : Option Bytes :=
  if n ≤ buf.length then some (buf.take n) else none

/-- The store `buf[i] = v`; `none` when `i` is outside the buffer. -/
def writeByte (buf : Bytes) (i : Nat) (v : Nat) : Option Bytes :=
  if i < buf.length then some (buf.set i v) else none

/-- Copy `data` over the start of `buf` (the buffer keeps its tail). -/
def store (buf data : Bytes) : Bytes := data ++ buf.drop data.length

/-- Conversion of an integer to a 32-bit `int` (two's complement wrap-around). -/
def toInt32 (n : Int) : Int := (n + 2147483648) % 4294967296 - 2147483648

/-- Conversion of an integer to a 64-bit unsigned value. -/
def toU64 (n : Int) : Nat := (n % 18446744073709551616).toNat

/-! ## Code outside the file -/

/-- The functions `brainflayer.c` calls and does not define.  Each field is the
input/output behaviour of one of them on the bytes it is handed. -/
structure Ext where
  /-- OpenSSL `SHA256_Init/Update/Final` over one byte string. -/
  sha256 : Bytes → Bytes
  /-- OpenSSL `RIPEMD160_Init/Update/Final` over one byte string. -/
  ripemd160 : Bytes → Bytes
  /-- The call `secp256k1_ec_pubkey_create_precomp(pub_chr, &pub_chr_sz, priv)`: from the 32
  bytes at `priv`, the bytes it stores at `pub_chr` and the `int` it returns. -/
  ec_pubkey_create_precomp : Bytes → Bytes × Int
  /-- The call `unhex(str, str_sz, unhexed, unhexed_sz)`: the new contents of the decode
  buffer; the pointer it returns is used by the callers as that buffer. -/
  unhex : Bytes → Nat → Bytes → Nat → Bytes
  /-- The call `warpwallet(pass, pass_sz, salt, salt_sz, out)`: return value and the bytes
  left in `out`. -/
  warpwallet : Bytes → Bytes → Int × Bytes
  /-- The call `brainwalletio(pass, pass_sz, salt, salt_sz, out)`. -/
  brainwalletio : Bytes → Bytes → Int × Bytes
  /-- The call `brainv2(pass, pass_sz, salt, salt_sz, hexout)`. -/
  brainv2 : Bytes → Bytes → Int × Bytes
  /-- The call `bloom_chk_hash160(bloom, hash.ul)`, as a truth value. -/
  bloom_chk_hash160 : Bytes → Bytes → Bool
  /-- A SHA-256 digest has `SHA256_DIGEST_LENGTH` bytes. -/
  sha256_length : ∀ x, (sha256 x).length = 32
  /-- A RIPEMD-160 digest has 20 bytes. -/
  ripemd160_length : ∀ x, (ripemd160 x).length = 20
  /-- The hex decoder writes inside the buffer it is given. -/
  unhex_length : ∀ s n u m, (unhex s n u m).length = u.length
  /-- The array `hexout` that `brainv2` fills has 33 bytes. -/
  brainv2_length : ∀ p s, (brainv2 p s).2.length = 33

/-! ## Static buffers -/

/-- The file-scope scratch buffers (lines 38-46). -/
structure Globals where
  hash256 : Bytes
  hash160_tmp : Bytes
  hash160_compr : Bytes
  hash160_uncmp : Bytes
  mem : Bytes
  unhexed : Bytes

/-- What a transform leaves behind: its return value, the scratch buffers and the
candidate buffer it was handed. -/
structure TResult where
  ret : Int
  g : Globals
  buf : Bytes

/-! ## Hash160 derivation (lines 86-132) -/

/-- The function `priv2hash160`: one multiplication, two digests, and `return 0`. -/
def priv2hash160 (X : Ext) (g : Globals) (priv : Bytes) : Int × Globals :=
  -- secp256k1_ec_pubkey_create_precomp(pub_chr, &pub_chr_sz, priv); result discarded
  let mem1 := store g.mem (X.ec_pubkey_create_precomp (priv.take 32)).1
  -- sha256(pub), 65 bytes
  let h1 := X.sha256 (mem1.take 65)
  -- ripemd160(sha256(pub))
  let t1 := X.ripemd160 (h1.take 32)
  -- memcpy(hash160_uncmp.uc, hash160_tmp.uc, 20)
  let uncmp := t1.take 20
  -- pub_chr[0] = 0x02 | (pub_chr[64] & 0x01)
  let mem2 := mem1.set 0 (2 ||| (mem1.getD 64 0 &&& 1))
  -- sha256(pub), 33 bytes
  let h2 := X.sha256 (mem2.take 33)
  let t2 := X.ripemd160 (h2.take 32)
  -- memcpy(hash160_compr.uc, hash160_tmp.uc, 20)
  let compr := t2.take 20
  (0, { g with hash256 := h2, hash160_tmp := t2, hash160_compr := compr,
               hash160_uncmp := uncmp, mem := mem2 })

/-! ## Input transforms (lines 134-204) -/

/-- The function `pass2hash160`: private key = sha256(passphrase). -/
def pass2hash160 (X : Ext) (g : Globals) (pass : Bytes) (pass_sz : Nat) : Option (Int × Globals) :=
  match readBytes pass pass_sz with
  | none => none
  | some data =>
    let g1 := { g with hash256 := X.sha256 data }
    some (priv2hash160 X g1 g1.hash256)

/-- The function `hexpass2hash160`. -/
def hexpass2hash160 (X : Ext) (g : Globals) (hpass : Bytes) (hpass_sz : Nat) :
    Option (Int × Globals) :=
  let g1 := { g with unhexed := X.unhex hpass hpass_sz g.unhexed 4096 }
  pass2hash160 X g1 g1.unhexed (hpass_sz >>> 1)

/-- The function `hexpriv2hash160`. -/
def hexpriv2hash160 (X : Ext) (g : Globals) (hpriv : Bytes) (hpriv_sz : Nat) : Int × Globals :=
  let g1 := { g with unhexed := X.unhex hpriv hpriv_sz g.unhexed 4096 }
  priv2hash160 X g1 g1.unhexed

/-- The static pair `kdfsalt`, `kdfsalt_sz` and the static pair `kdfpass`, `kdfpass_sz`. -/
structure Kdf where
  kdfsalt : Bytes
  kdfsalt_sz : Nat
  kdfpass : Bytes
  kdfpass_sz : Nat

/-- Shared shape of `warppass2hash160` and `bwiopass2hash160`: the candidate is the passphrase. -/
def kdfpass2hash160 (kdf : Bytes → Bytes → Int × Bytes) (X : Ext) (k : Kdf) (g : Globals)
    (pass : Bytes) (pass_sz : Nat) : Option TResult :=
  match readBytes pass pass_sz with
  | none => none
  | some data =>
    let r := kdf data (k.kdfsalt.take k.kdfsalt_sz)
    let g1 := { g with hash256 := r.2 }
    if r.1 ≠ 0 then some ⟨r.1, g1, pass⟩
    else
      -- pass[pass_sz] = 0
      match writeByte pass pass_sz 0 with
      | none => none
      | some pass1 =>
        let p := priv2hash160 X g1 g1.hash256
        some ⟨p.1, p.2, pass1⟩

/-- Shared shape of `warpsalt2hash160` and `bwiosalt2hash160`: the candidate is the salt. -/
def kdfsalt2hash160 (kdf : Bytes → Bytes → Int × Bytes) (X : Ext) (k : Kdf) (g : Globals)
    (salt : Bytes) (salt_sz : Nat) : Option TResult :=
  match readBytes salt salt_sz with
  | none => none
  | some data =>
    let r := kdf (k.kdfpass.take k.kdfpass_sz) data
    let g1 := { g with hash256 := r.2 }
    if r.1 ≠ 0 then some ⟨r.1, g1, salt⟩
    else
      -- salt[salt_sz] = 0
      match writeByte salt salt_sz 0 with
      | none => none
      | some salt1 =>
        let p := priv2hash160 X g1 g1.hash256
        some ⟨p.1, p.2, salt1⟩

/-- The function `warppass2hash160`. -/
def warppass2hash160 (X : Ext) := kdfpass2hash160 X.warpwallet X

/-- The function `bwiopass2hash160`. -/
def bwiopass2hash160 (X : Ext) := kdfpass2hash160 X.brainwalletio X

/-- The function `warpsalt2hash160`. -/
def warpsalt2hash160 (X : Ext) := kdfsalt2hash160 X.warpwallet X

/-- The function `bwiosalt2hash160`. -/
def bwiosalt2hash160 (X : Ext) := kdfsalt2hash160 X.brainwalletio X

/-- The function `brainv2pass2hash160`: the KDF output is a 32-character hex text that is
hashed like a passphrase. -/
def brainv2pass2hash160 (X : Ext) (k : Kdf) (g : Globals) (pass : Bytes) (pass_sz : Nat) :
    Option TResult :=
  match readBytes pass pass_sz with
  | none => none
  | some data =>
    let r := X.brainv2 data (k.kdfsalt.take k.kdfsalt_sz)
    if r.1 ≠ 0 then some ⟨r.1, g, pass⟩
    else
      match writeByte pass pass_sz 0 with
      | none => none
      | some pass1 =>
        match pass2hash160 X g r.2 32 with
        | none => none
        | some p => some ⟨p.1, p.2, pass1⟩

/-- The function `brainv2salt2hash160`. -/
def brainv2salt2hash160 (X : Ext) (k : Kdf) (g : Globals) (salt : Bytes) (salt_sz : Nat) :
    Option TResult :=
  match readBytes salt salt_sz with
  | none => none
  | some data =>
    let r := X.brainv2 (k.kdfpass.take k.kdfpass_sz) data
    if r.1 ≠ 0 then some ⟨r.1, g, salt⟩
    else
      match writeByte salt salt_sz 0 with
      | none => none
      | some salt1 =>
        match pass2hash160 X g r.2 32 with
        | none => none
        | some p => some ⟨p.1, p.2, salt1⟩

/-- The values the function pointer `input2hash160` can hold. -/
inductive Transform where
  | pass | hexpass | hexpriv
  | warppass | bwiopass | brainv2pass
  | warpsalt | bwiosalt | brainv2salt
  deriving DecidableEq

/-- A call through the function pointer `input2hash160`. -/
def input2hash160 (X : Ext) (k : Kdf) (t : Transform) (g : Globals) (buf : Bytes) (sz : Nat) :
    Option TResult :=
  match t with
  | .pass => (pass2hash160 X g buf sz).map fun p => ⟨p.1, p.2, buf⟩
  | .hexpass => (hexpass2hash160 X g buf sz).map fun p => ⟨p.1, p.2, buf⟩
  | .hexpriv => let p := hexpriv2hash160 X g buf sz; some ⟨p.1, p.2, buf⟩
  | .warppass => warppass2hash160 X k g buf sz
  | .bwiopass => bwiopass2hash160 X k g buf sz
  | .brainv2pass => brainv2pass2hash160 X k g buf sz
  | .warpsalt => warpsalt2hash160 X k g buf sz
  | .bwiosalt => bwiosalt2hash160 X k g buf sz
  | .brainv2salt => brainv2salt2hash160 X k g buf sz

/-! ## Output records (lines 206-219) -/

/-- ASCII bytes of a string literal of the source. -/
def ascii (s : String) : Bytes := s.toList.map Char.toNat

/-- Lowercase hex digit of a value below 16, as the `%x` conversion writes it. -/
def hexdigit (n : Nat) : Nat := if n < 10 then 48 + n else 87 + n

/-- Digits written by `%x`: most significant first, no leading zero, one digit for 0.
The fuel bounds the number of digits; 8 are enough for a 32-bit value. -/
def hexDigits : Nat → Nat → Bytes
  | 0, _ => []
  | fuel + 1, n =>
    if n < 16 then [hexdigit n] else hexDigits fuel (n / 16) ++ [hexdigit (n % 16)]

/-- The conversion `%08x` of a 32-bit value: its hex digits, zero-padded on the left to width 8. -/
def fmt08x (n : Nat) : Bytes :=
  List.replicate (8 - (hexDigits 8 n).length) 48 ++ hexDigits 8 n

/-- The member `ul[i]` of the union `hash160_t` whose bytes `uc` are given: four bytes read
in the byte order of the host. -/
def hash160_ul (littleEndian : Bool) (uc : Bytes) (i : Nat) : Nat :=
  if littleEndian then
    uc.getD (4 * i) 0 + 256 * uc.getD (4 * i + 1) 0 + 65536 * uc.getD (4 * i + 2) 0
      + 16777216 * uc.getD (4 * i + 3) 0
  else
    16777216 * uc.getD (4 * i) 0 + 65536 * uc.getD (4 * i + 1) 0 + 256 * uc.getD (4 * i + 2) 0
      + uc.getD (4 * i + 3) 0

/-- The libc function `ntohl`: a byte swap on a little-endian host, the identity otherwise. -/
def ntohl (littleEndian : Bool) (x : Nat) : Nat :=
  if littleEndian then
    x % 256 * 16777216 + x / 256 % 256 * 65536 + x / 65536 % 256 * 256 + x / 16777216 % 256
  else x

/-- The function `fprintresult`: the bytes one call appends to the output file, format
`%08x%08x%08x%08x%08x:%c:%s:%s\n`. -/
def fprintresult (littleEndian : Bool) (hash : Bytes) (compressed : Nat) (type input : Bytes) :
    Bytes :=
  fmt08x (ntohl littleEndian (hash160_ul littleEndian hash 0))
    ++ fmt08x (ntohl littleEndian (hash160_ul littleEndian hash 1))
    ++ fmt08x (ntohl littleEndian (hash160_ul littleEndian hash 2))
    ++ fmt08x (ntohl littleEndian (hash160_ul littleEndian hash 3))
    ++ fmt08x (ntohl littleEndian (hash160_ul littleEndian hash 4))
    ++ [58, compressed, 58] ++ cstr type ++ [58] ++ cstr input ++ [10]

/-- Two lowercase hex digits of one byte, high nibble first. -/
def hexByte (b : Nat) : Bytes := [hexdigit (b / 16), hexdigit (b % 16)]

/-- Byte-by-byte hex rendering of a digest, in index order. -/
def hexOfBytes (d : Bytes) : Bytes := d.flatMap hexByte

/-! ## Main loop (lines 423-488) -/

/-- One telemetry line on the error stream; the floating-point rate is left out. -/
structure Report where
  olines : Nat
  ilines_curr : Nat
  time_elapsed : Nat
  deriving DecidableEq

/-- What the loop reads and never writes: the collaborators, the host byte order, the
selected transform with its label, the filter (absent when `bloom` is NULL), the verbose
flag and the monotonic clock (the timespec returned by the n-th `clock_gettime`). -/
structure Ctx where
  X : Ext
  littleEndian : Bool
  kdf : Kdf
  input2hash160 : Transform
  topt : Bytes
  bloom : Option Bytes
  vopt : Bool
  clock : Nat → Nat × Nat

/-- The variables the loop updates, the bytes written to `ofile` (one entry per
`fprintresult` call) and the telemetry lines written to the error stream. -/
structure LoopState where
  g : Globals
  olines : Nat
  report_mask : Nat
  time_last : Nat
  time_start : Nat
  ilines_last : Nat
  ilines_curr : Nat
  clockCalls : Nat
  ofile : List Bytes
  stderr : List Report

/-- The function `getns` applied to the timespec `(tv_sec, tv_nsec)`. -/
def getns (ts : Nat × Nat) : Nat := (ts.2 + ts.1 * 1000000000) % 18446744073709551616

/-- One `fprintresult(ofile, ...)` call of the loop. -/
def emit (c : Ctx) (s : LoopState) (hash : Bytes) (compressed : Nat) (line : Bytes) : LoopState :=
  { s with ofile := s.ofile ++ [fprintresult c.littleEndian hash compressed c.topt line] }

/-- The statement `++olines`. -/
def countMatch (s : LoopState) : LoopState :=
  { s with olines := (s.olines + 1) % 18446744073709551616 }

/-- Line 425, `line[strlen(line)-1] = 0`, on the buffer `getline` filled with `r`: the buffer
afterwards.  With `strlen(line) = 0` the index is `SIZE_MAX`, outside the buffer. -/
def chomp (r : Bytes) : Option Bytes :=
  if strlen (r ++ [0]) = 0 then none
  else writeByte (r ++ [0]) (strlen (r ++ [0]) - 1) 0

/-- Lines 429-441: the records written once the transform call is over.  The value the
transform returned is not looked at. -/
def emitRecords (c : Ctx) (s : LoopState) (t : TResult) : LoopState :=
  let s1 := { s with g := t.g }
  match c.bloom with
  | some bloom =>
    let s2 :=
      if c.X.bloom_chk_hash160 bloom s1.g.hash160_uncmp then
        countMatch (emit c s1 s1.g.hash160_uncmp 117 t.buf)
      else s1
    if c.X.bloom_chk_hash160 bloom s2.g.hash160_compr then
      countMatch (emit c s2 s2.g.hash160_compr 99 t.buf)
    else s2
  | none => emit c (emit c s1 s1.g.hash160_uncmp 117 t.buf) s1.g.hash160_compr 99 t.buf

/-- Lines 425-441: the work on one line `r` returned by `getline`. -/
def processLine (c : Ctx) (s : LoopState) (r : Bytes) : Option LoopState :=
  match chomp r with
  | none => none
  | some line =>
    -- input2hash160(line, strlen(line));
    (input2hash160 c.X c.kdf c.input2hash160 s.g line (strlen line)).map (emitRecords c s)

/-- Lines 446-487, the body of `if (vopt)`: the new state and whether the loop goes on. -/
def telemetry (c : Ctx) (s : LoopState) (line_read : Int) : LoopState × Bool :=
  let ilines_curr := (s.ilines_curr + 1) % 18446744073709551616
  if line_read < 0 ∨ ilines_curr &&& s.report_mask = 0 then
    let time_curr := getns (c.clock s.clockCalls)
    let time_delta := (time_curr + 18446744073709551616 - s.time_last) % 18446744073709551616
    let time_elapsed := (time_curr + 18446744073709551616 - s.time_start) % 18446744073709551616
    let report_mask :=
      if time_delta < 2500000000 then (s.report_mask <<< 1) % 18446744073709551616 ||| 1
      else if time_delta > 10000000000 then s.report_mask >>> 1
      else s.report_mask
    ({ s with
        ilines_curr := ilines_curr, ilines_last := ilines_curr, time_last := time_curr,
        report_mask := report_mask, clockCalls := s.clockCalls + 1,
        stderr := s.stderr ++ [⟨s.olines, ilines_curr, time_elapsed⟩] },
     decide (¬ line_read < 0))
  else ({ s with ilines_curr := ilines_curr }, true)

/-- Lines 446-487 after a line was processed: telemetry when `-v` is given, and on to the
next pass otherwise. -/
def finishPass (c : Ctx) (line_read : Int) (s : LoopState) : LoopState × Bool :=
  if c.vopt then telemetry c s line_read else (s, true)

/-- One pass through the body of `for (;;)`.  `rd` is what `getline` delivered: a line, or
nothing (return value -1).  The result is the new state and whether the loop goes on. -/
def iteration (c : Ctx) (s : LoopState) (rd : Option Bytes) : Option (LoopState × Bool) :=
  let ret : Int := match rd with
    | some r => r.length
    | none => -1
  -- line_read = getline(&line, &line_sz, ifile)-1, stored in an int
  let line_read := toInt32 (ret - 1)
  if line_read > -1 then
    match rd with
    | none => none
    | some r => (processLine c s r).map (finishPass c line_read)
  else if c.vopt then some (telemetry c s line_read)
  else some (s, false)

/-- The lines `getline` returns for an input stream: each ends with its newline, except
possibly the last. -/
def getlines : Bytes → List Bytes
  | [] => []
  | b :: bs =>
    if b = 10 then [10] :: getlines bs
    else
      match getlines bs with
      | [] => [[b]]
      | l :: ls => (b :: l) :: ls

/-- The loop `for (;;)` run over the lines of the input, then over end of input. -/
def mainLoop (c : Ctx) : LoopState → List Bytes → Option LoopState
  | s, [] => (iteration c s none).map fun p => p.1
  | s, r :: rs =>
    match iteration c s (some r) with
    | none => none
    | some (s1, true) => mainLoop c s1 rs
    | some (s1, false) => some s1

/-- The passes through the loop body of one run, in order: for each pass the state before
it, what `getline` delivered, and the state after it. -/
def loopPasses (c : Ctx) : LoopState → List Bytes → List (LoopState × Option Bytes × LoopState)
  | s, [] =>
    match iteration c s none with
    | none => []
    | some (s1, _) => [(s, none, s1)]
  | s, r :: rs =>
    match iteration c s (some r) with
    | none => []
    | some (s1, true) => (s, some r, s1) :: loopPasses c s1 rs
    | some (s1, false) => [(s, some r, s1)]

/-! ## Startup (lines 249-421) and the whole program -/

/-- The one-line diagnostics of `bail`, by the format string they print. -/
inductive Diag where
  | invalidWindowSize (wopt : Int)
  | notEnoughRam (wopt : Int)
  | unknownInputType (topt : Bytes)
  | saltAndPassphrase
  | passphraseNotSupported (topt : Bytes)
  | saltNotSupported (topt : Bytes)
  | bloomFilter
  | openForReading (iopt : Bytes)
  | openForWriting (oopt : Bytes)
  | precomputedTable
  deriving DecidableEq

/-- The option variables once the `getopt` loop (lines 269-328) is over; an option that was
not given is `none` (NULL). -/
structure Opts where
  aopt : Bool
  vopt : Bool
  wopt : Int
  mopt : Option Bytes
  bopt : Option Bytes
  iopt : Option Bytes
  oopt : Option Bytes
  topt : Option Bytes
  sopt : Option Bytes
  popt : Option Bytes

/-- What the operating system and the linked code answer during one run. -/
structure Env where
  X : Ext
  littleEndian : Bool
  /-- The field `mem_unit` filled in by `sysinfo`. -/
  mem_unit : Nat
  /-- The field `totalram` filled in by `sysinfo`. -/
  totalram : Nat
  /-- The call `bloom_open(bopt)`; `none` is NULL. -/
  bloom_open : Bytes → Option Bytes
  /-- Opening a file for reading: its bytes, or `none` when `fopen` fails. -/
  fopen_read : Bytes → Option Bytes
  /-- Opening a file for writing (second argument: append mode); `false` when `fopen` fails. -/
  fopen_write : Bytes → Bool → Bool
  stdin : Bytes
  /-- The call `secp256k1_ec_pubkey_precomp_table(wopt, mopt)`. -/
  precomp_table : Int → Option Bytes → Int
  clock : Nat → Nat × Nat
  /-- Contents of the block returned by `malloc(4096)`. -/
  heap : Bytes
  /-- Indeterminate value of the automatic variable `olines` when `-v` is not given. -/
  olines : Nat
  /-- Indeterminate value of `ilines_last` and `ilines_curr` when `-v` is not given. -/
  ilines : Nat

/-- How a run ends: exit status, diagnostic of `bail` if any, number of calls that
build or load the table, records written to the output file, telemetry lines. -/
structure Outcome where
  exit : Int
  diag : Option Diag
  tableCalls : Nat
  ofile : List Bytes
  stderr : List Report
  deriving DecidableEq

/-- Lines 330-340: the window-size check; `none` when it lets the run go on. -/
def checkWindow (wopt : Int) (mem_unit totalram : Nat) : Option Diag :=
  if wopt < 1 ∨ wopt > 28 then some (.invalidWindowSize wopt)
  else
    -- uint64_t sysram = info.mem_unit * info.totalram;
    let sysram := (mem_unit * totalram) % 18446744073709551616
    -- 3584LLU*(1<<wopt) > sysram, the shift done in int
    if (3584 * toU64 (toInt32 (2 ^ wopt.toNat))) % 18446744073709551616 > sysram then
      some (.notEnoughRam wopt)
    else none

/-- Lines 342-364: label, transform and `spok` selected by `-t`. -/
def selectTransform (topt popt : Option Bytes) : Except Diag (Bytes × Transform × Bool) :=
  match topt with
  | some t =>
    if cstr t = ascii "str" then .ok (t, .pass, false)
    else if cstr t = ascii "hex" then .ok (t, .hexpass, false)
    else if cstr t = ascii "priv" then .ok (t, .hexpriv, false)
    else if cstr t = ascii "warp" then
      .ok (t, if popt.isSome then .warpsalt else .warppass, true)
    else if cstr t = ascii "bwio" then
      .ok (t, if popt.isSome then .bwiosalt else .bwiopass, true)
    else if cstr t = ascii "bv2" then
      .ok (t, if popt.isSome then .brainv2salt else .brainv2pass, true)
    else .error (.unknownInputType t)
  | none => .ok (ascii "str" ++ [0], .pass, false)

/-- Lines 366-388: the salt and passphrase options. -/
def selectKdf (spok : Bool) (topt : Bytes) (sopt popt : Option Bytes) : Except Diag Kdf :=
  if spok then
    match sopt, popt with
    | some _, some _ => .error .saltAndPassphrase
    | _, some p => .ok ⟨[], 0, p, strlen p⟩
    | some s, none => .ok ⟨s, strlen s, [], 0⟩
    | none, none => .ok ⟨[], 0, [], 0⟩
  else
    match sopt, popt with
    | _, some _ => .error (.passphraseNotSupported topt)
    | some _, none => .error (.saltNotSupported topt)
    | none, none => .ok ⟨[], 0, [], 0⟩

/-- Exit through `bail(code, ...)` before the table call. -/
def bail (code : Int) (d : Diag) : Option Outcome := some ⟨code, some d, 0, [], []⟩

/-- The static buffers when `main` reaches the loop: zero-initialised statics and the
block allocated by `brainflayer_init_globals`. -/
def initGlobals (heap : Bytes) : Globals :=
  { hash256 := List.replicate 32 0, hash160_tmp := List.replicate 20 0,
    hash160_compr := List.replicate 20 0, hash160_uncmp := List.replicate 20 0,
    mem := heap, unhexed := List.replicate 4096 0 }

/-- Lines 413-421: the loop variables before the first pass. -/
def initLoop (vopt : Bool) (e : Env) : LoopState :=
  if vopt then
    { g := initGlobals e.heap, olines := 0, report_mask := 0,
      time_last := getns (e.clock 0), time_start := getns (e.clock 0),
      ilines_last := 0, ilines_curr := 0, clockCalls := 1, ofile := [], stderr := [] }
  else
    { g := initGlobals e.heap, olines := e.olines, report_mask := 0,
      time_last := 0, time_start := 0,
      ilines_last := e.ilines, ilines_curr := e.ilines, clockCalls := 0, ofile := [],
      stderr := [] }

/-- The function `main` from line 330 on. -/
def main (o : Opts) (e : Env) : Option Outcome :=
  match checkWindow o.wopt e.mem_unit e.totalram with
  | some d => bail 1 d
  | none =>
    match selectTransform o.topt o.popt with
    | .error d => bail 1 d
    | .ok (topt, f, spok) =>
      match selectKdf spok topt o.sopt o.popt with
      | .error d => bail 1 d
      | .ok kdf =>
        -- bopt && (bloom = bloom_open(bopt)) == NULL
        if o.bopt.isSome ∧ (o.bopt.bind e.bloom_open).isNone then bail 1 .bloomFilter
        else
          match (match o.iopt with
                 | some i => (e.fopen_read i).elim (Except.error (Diag.openForReading i)) Except.ok
                 | none => Except.ok e.stdin) with
          | .error d => bail 1 d
          | .ok input =>
            if (o.oopt.elim false fun path => !e.fopen_write path o.aopt) then
              bail 1 (.openForWriting (o.oopt.getD []))
            else if e.precomp_table o.wopt o.mopt ≠ 0 then
              some ⟨1, some .precomputedTable, 1, [], []⟩
            else
              let c : Ctx := ⟨e.X, e.littleEndian, kdf, f, topt, o.bopt.bind e.bloom_open,
                o.vopt, e.clock⟩
              (mainLoop c (initLoop o.vopt e) (getlines input)).map fun s =>
                ⟨0, none, 1, s.ofile, s.stderr⟩

/-! ## Vocabulary of the statements -/

/-- The buffer `line` after line 425 for a line `r` returned by `getline` (empty where
the store of line 425 is undefined); the transform is handed this buffer and its
`strlen`, and `%s` prints its C string. -/
def lineBuf (r : Bytes) : Bytes := (chomp r).getD []

/-- A line returned by `getline` on which the loop body has defined behaviour: it is not
empty, its length minus one fits the `int` variable `line_read`, it does not begin with a
NUL byte, and, when the hex-passphrase transform is active, half the length of the
candidate is within the 4096-byte decode buffer. -/
def Admissible (c : Ctx) (r : Bytes) : Prop :=
  r ≠ [] ∧ r.length ≤ 2147483648 ∧ r.head? ≠ some 0 ∧
    (c.input2hash160 = .hexpass → (strlen r - 1) / 2 ≤ 4096)

instance (c : Ctx) (r : Bytes) : Decidable (Admissible c r) := by
  unfold Admissible; infer_instance

/-- A candidate line as text: no NUL byte, no newline, fewer than 2^31 bytes, and, when the
hex-passphrase transform is active, half its length within the 4096-byte decode buffer. -/
def TextLine (c : Ctx) (l : Bytes) : Prop :=
  0 ∉ l ∧ 10 ∉ l ∧ l.length < 2147483648 ∧
    (c.input2hash160 = .hexpass → l.length / 2 ≤ 4096)

instance (c : Ctx) (l : Bytes) : Decidable (TextLine c l) := by
  unfold TextLine; infer_instance

/-- The input stream made of the given lines, each followed by a newline. -/
def streamOf (lines : List Bytes) : Bytes := lines.flatMap fun l => l ++ [10]

/-- The value the transform returns for a candidate: 0 for the three transforms without a
KDF, the return value of the KDF for the others. -/
def transformStatus (X : Ext) (k : Kdf) (t : Transform) (cand : Bytes) : Int :=
  match t with
  | .pass => 0
  | .hexpass => 0
  | .hexpriv => 0
  | .warppass => (X.warpwallet cand (k.kdfsalt.take k.kdfsalt_sz)).1
  | .bwiopass => (X.brainwalletio cand (k.kdfsalt.take k.kdfsalt_sz)).1
  | .brainv2pass => (X.brainv2 cand (k.kdfsalt.take k.kdfsalt_sz)).1
  | .warpsalt => (X.warpwallet (k.kdfpass.take k.kdfpass_sz) cand).1
  | .bwiosalt => (X.brainwalletio (k.kdfpass.take k.kdfpass_sz) cand).1
  | .brainv2salt => (X.brainv2 (k.kdfpass.take k.kdfpass_sz) cand).1

/-- The private key a transform derives from the candidate text `cand`, by the rule of the
transform: SHA256 of the candidate, SHA256 of its hex decoding, its hex decoding, the KDF
output, or SHA256 of the 32 hex characters of the brainv2 output.  `unhexed` is the decode
buffer before the call. -/
def derivedScalar (X : Ext) (k : Kdf) (t : Transform) (unhexed cand : Bytes) : Bytes :=
  match t with
  | .pass => X.sha256 cand
  | .hexpass =>
    X.sha256 ((X.unhex (cand ++ [0, 0]) cand.length unhexed 4096).take (cand.length / 2))
  | .hexpriv => X.unhex (cand ++ [0, 0]) cand.length unhexed 4096
  | .warppass => (X.warpwallet cand (k.kdfsalt.take k.kdfsalt_sz)).2
  | .bwiopass => (X.brainwalletio cand (k.kdfsalt.take k.kdfsalt_sz)).2
  | .brainv2pass => X.sha256 ((X.brainv2 cand (k.kdfsalt.take k.kdfsalt_sz)).2.take 32)
  | .warpsalt => (X.warpwallet (k.kdfpass.take k.kdfpass_sz) cand).2
  | .bwiosalt => (X.brainwalletio (k.kdfpass.take k.kdfpass_sz) cand).2
  | .brainv2salt => X.sha256 ((X.brainv2 (k.kdfpass.take k.kdfpass_sz) cand).2.take 32)

/-- The 65 bytes of the uncompressed public key of a scalar: what lies at `pub_chr` once the
multiplication has stored its result over the block `mem`. -/
def pubkeyBytes (X : Ext) (mem scalar : Bytes) : Bytes :=
  (store mem (X.ec_pubkey_create_precomp (scalar.take 32)).1).take 65

/-- The compressed serialization of a 65-byte public key: flag 2 or 3 by the lowest bit of
the last byte, then the 32 bytes of x. -/
def compressedKey (pub : Bytes) : Bytes :=
  (pub.set 0 (2 ||| (pub.getD 64 0 &&& 1))).take 33

/-- Hash160 of a byte string: RIPEMD160(SHA256(x)). -/
def hash160 (X : Ext) (x : Bytes) : Bytes := X.ripemd160 (X.sha256 x)

/-- The digest part of an output record: the five 32-bit words of the digest, each read
through `ntohl` and written as eight hex digits. -/
def hash160_hex (littleEndian : Bool) (hash : Bytes) : Bytes :=
  fmt08x (ntohl littleEndian (hash160_ul littleEndian hash 0))
    ++ fmt08x (ntohl littleEndian (hash160_ul littleEndian hash 1))
    ++ fmt08x (ntohl littleEndian (hash160_ul littleEndian hash 2))
    ++ fmt08x (ntohl littleEndian (hash160_ul littleEndian hash 3))
    ++ fmt08x (ntohl littleEndian (hash160_ul littleEndian hash 4))

/-- An output record: digest in hex, `:`, parity, `:`, label, `:`, candidate text, newline. -/
def record (littleEndian : Bool) (hash : Bytes) (parity : Nat) (label text : Bytes) : Bytes :=
  hash160_hex littleEndian hash ++ [58, parity, 58] ++ label ++ [58] ++ text ++ [10]

/-- The mask after a report that came `delta` nanoseconds after the previous one. -/
def nextMask (mask delta : Nat) : Nat :=
  if delta < 2500000000 then min (2 * mask + 1) 18446744073709551615
  else if delta > 10000000000 then mask / 2
  else mask

/-- What holds of pass number `i` (counted from 0) of a verbose run, `p` being the state
before the pass, what `getline` delivered and the state after it: the line counter goes
from `i` to `i + 1`; `time_last` is the clock reading taken at the previous report (reading
number 0 is taken before the loop); the mask is 2^k - 1 before and 2^k1 - 1 after; a pass
that read a line of at most 2^31 bytes reports exactly when `i + 1` is a multiple of 2^k,
the pass at end of input reports; a report takes the next clock reading and sets the mask
by `nextMask`, and a pass without report leaves mask, error stream and `time_last` alone. -/
def PassSpec (c : Ctx) (i : Nat) (p : LoopState × Option Bytes × LoopState) : Prop :=
  p.1.ilines_curr = i % 18446744073709551616
  ∧ p.2.2.ilines_curr = (i + 1) % 18446744073709551616
  ∧ p.1.time_last = getns (c.clock p.1.stderr.length)
  ∧ ∃ k, k ≤ 64 ∧ p.1.report_mask = 2 ^ k - 1
    ∧ (∀ r, p.2.1 = some r → r.length ≤ 2147483648 →
        (p.2.2.stderr.length = p.1.stderr.length + 1 ↔ (i + 1) % 2 ^ k = 0))
    ∧ (p.2.1 = none → p.2.2.stderr.length = p.1.stderr.length + 1)
    ∧ (p.2.2.stderr.length = p.1.stderr.length + 1 →
        p.2.2.report_mask = nextMask p.1.report_mask
          ((getns (c.clock (p.1.stderr.length + 1)) + 18446744073709551616 - p.1.time_last)
            % 18446744073709551616)
        ∧ p.2.2.time_last = getns (c.clock (p.1.stderr.length + 1)))
    ∧ (¬ p.2.2.stderr.length = p.1.stderr.length + 1 →
        p.2.2.report_mask = p.1.report_mask ∧ p.2.2.stderr = p.1.stderr
        ∧ p.2.2.time_last = p.1.time_last)
    ∧ ∃ k1, k1 ≤ 64 ∧ p.2.2.report_mask = 2 ^ k1 - 1

/-- The characters `0`-`9` and `a`-`f`. -/
def isLowerHex (ch : Nat) : Prop := (48 ≤ ch ∧ ch ≤ 57) ∨ (97 ≤ ch ∧ ch ≤ 102)

/-- Exactly `width` hex digits of a value, most significant first, leading zeros kept. -/
def fixedHex : Nat → Nat → Bytes
  | 0, _ => []
  | width + 1, n => fixedHex width (n / 16) ++ [hexdigit (n % 16)]

/-- Well-formed hex text for the 4096-byte decode buffer: an even number of hex digit
characters that decodes to at most 4096 bytes. -/
def wellFormedHex (s : Bytes) : Prop :=
  s.length % 2 = 0 ∧ s.length / 2 ≤ 4096 ∧
    ∀ ch ∈ s, (48 ≤ ch ∧ ch ≤ 57) ∨ (97 ≤ ch ∧ ch ≤ 102) ∨ (65 ≤ ch ∧ ch ≤ 70)

instance (s : Bytes) : Decidable (wellFormedHex s) := by
  unfold wellFormedHex; infer_instance

/-! ## Stand-ins used to run the model on concrete inputs -/

/-- Value of a hex digit character, 0 for any other character. -/
def nibble (ch : Nat) : Nat :=
  if 48 ≤ ch ∧ ch ≤ 57 then ch - 48
  else if 97 ≤ ch ∧ ch ≤ 102 then ch - 87
  else if 65 ≤ ch ∧ ch ≤ 70 then ch - 55
  else 0

/-- Pairs of characters to bytes. -/
def demoDecode : Bytes → Bytes
  | a :: b :: rest => (16 * nibble a + nibble b) :: demoDecode rest
  | _ => []

/-- Stand-in collaborators: digests that keep a checksum of their input, a multiplication
that copies the scalar into both coordinates and reports failure (-1) for the zero scalar,
a hex decoder, KDFs that fail on the one-byte input `b`, and a filter that holds the
digests whose first byte is odd. -/
def demoExt : Ext where
  sha256 := fun x => (x.sum % 256) :: List.replicate 31 (x.length % 256)
  ripemd160 := fun x => (x.sum % 256) :: List.replicate 19 (x.length % 256)
  ec_pubkey_create_precomp := fun priv => (4 :: (priv ++ priv), if priv.sum = 0 then -1 else 0)
  unhex := fun s n u m => store u (((demoDecode (s.take n)).take m).take u.length)
  warpwallet := fun pass _ => if pass = [98] then (-1, List.replicate 32 0)
    else (0, pass.sum % 256 :: List.replicate 31 7)
  brainwalletio := fun pass _ => if pass = [98] then (-1, List.replicate 32 0)
    else (0, pass.sum % 256 :: List.replicate 31 7)
  brainv2 := fun pass _ => if pass = [98] then (-1, List.replicate 33 0)
    else (0, List.replicate 32 (48 + pass.sum % 10) ++ [0])
  bloom_chk_hash160 := fun _ h => h.headD 0 % 2 == 1
  sha256_length := by intro x; simp
  ripemd160_length := by intro x; simp
  unhex_length := by
    intro s n u m
    simp only [store, List.length_append, List.length_take, List.length_drop]
    omega
  brainv2_length := by
    intro p s
    by_cases h : p = [98] <;> simp [h]

/-- Static buffers at program start with an all-zero heap block. -/
def demoGlobals : Globals := initGlobals (List.replicate 4096 0)

/-- A loop context over the stand-ins: little-endian host, no salt, no clock drift. -/
def demoCtx (t : Transform) (label : String) (bloom : Option Bytes) (vopt : Bool) : Ctx :=
  ⟨demoExt, true, ⟨[], 0, [], 0⟩, t, ascii label ++ [0], bloom, vopt, fun n => (n, 0)⟩

/-- An environment over the stand-ins: 3.25 GiB of memory, no files, empty standard input,
a table call that succeeds and a clock that advances one second per reading. -/
def demoEnv : Env :=
  ⟨demoExt, true, 4096, 851968, fun _ => none, fun _ => none, fun _ _ => true, [],
    fun _ _ => 0, fun n => (n, 0), List.replicate 4096 0, 0, 0⟩

/-- Loop variables before the first pass, for the stand-ins. -/
def demoState : LoopState :=
  { g := demoGlobals, olines := 0, report_mask := 0, time_last := 0, time_start := 0,
    ilines_last := 0, ilines_curr := 0, clockCalls := 0, ofile := [], stderr := [] }

/-! ## Lemmas -/

theorem lor_two_and_one (b : Nat) : 2 ||| (b &&& 1) = if b % 2 = 0 then 2 else 3 := by
  rw [Nat.and_one_is_mod]
  rcases Nat.mod_two_eq_zero_or_one b with h | h <;> simp [h]

theorem take_digest32 (X : Ext) (d : Bytes) : (X.sha256 d).take 32 = X.sha256 d :=
  List.take_of_length_le (le_of_eq (X.sha256_length d))

theorem take_digest20 (X : Ext) (d : Bytes) : (X.ripemd160 d).take 20 = X.ripemd160 d :=
  List.take_of_length_le (le_of_eq (X.ripemd160_length d))

theorem priv2hash160_unhexed (X : Ext) (g : Globals) (priv : Bytes) :
    (priv2hash160 X g priv).2.unhexed = g.unhexed := rfl

/-! ### C strings -/

theorem strlen_le_length (l : Bytes) : strlen l ≤ l.length := by
  induction l with
  | nil => simp [strlen]
  | cons b bs ih =>
    unfold strlen
    split
    · omega
    · simp only [List.length_cons]; omega

theorem strlen_append_nul (l rest : Bytes) : strlen (l ++ 0 :: rest) = strlen l := by
  induction l with
  | nil => simp [strlen]
  | cons b bs ih =>
    show (if b = 0 then 0 else strlen (bs ++ 0 :: rest) + 1) = if b = 0 then 0 else strlen bs + 1
    rw [ih]

theorem strlen_of_not_mem (l : Bytes) (h : 0 ∉ l) : strlen l = l.length := by
  induction l with
  | nil => rfl
  | cons b bs ih =>
    have hb : b ≠ 0 := fun e => h (by simp [e])
    have hbs : 0 ∉ bs := fun e => h (List.mem_cons_of_mem _ e)
    simp [strlen, hb, ih hbs]

theorem strlen_set (l : Bytes) (n : Nat) (h : n < strlen l) : strlen (l.set n 0) = n := by
  induction l generalizing n with
  | nil => simp [strlen] at h
  | cons b bs ih =>
    unfold strlen at h
    split at h
    · omega
    · next hb =>
      cases n with
      | zero => simp [strlen]
      | succ m =>
        simp only [List.set_cons_succ, strlen, hb, if_false]
        rw [ih m (by omega)]

theorem set_strlen (l : Bytes) (h : strlen l < l.length) : l.set (strlen l) 0 = l := by
  induction l with
  | nil => simp at h
  | cons b bs ih =>
    by_cases hb : b = 0
    · subst hb; simp [strlen]
    · have h1 : strlen (b :: bs) = strlen bs + 1 := by simp [strlen, hb]
      rw [h1] at h ⊢
      simp only [List.length_cons] at h
      simp only [List.set_cons_succ]
      rw [ih (by omega)]

theorem cstr_append_nul (l rest : Bytes) (h : 0 ∉ l) : cstr (l ++ 0 :: rest) = l := by
  unfold cstr
  rw [strlen_append_nul, strlen_of_not_mem l h]
  simp

theorem strlen_pos_of_head (r : Bytes) (h0 : r.head? ≠ some 0) (hne : r ≠ []) : 0 < strlen r := by
  cases r with
  | nil => exact absurd rfl hne
  | cons b bs =>
    have hb : b ≠ 0 := fun e => h0 (by simp [e])
    simp [strlen, hb]

/-! ### The line buffer -/

theorem chomp_eq (r : Bytes) (h0 : r.head? ≠ some 0) (hne : r ≠ []) :
    chomp r = some ((r ++ [0]).set (strlen r - 1) 0) := by
  have hpos := strlen_pos_of_head r h0 hne
  have hlen := strlen_le_length r
  unfold chomp writeByte
  rw [strlen_append_nul]
  rw [if_neg (by omega), if_pos (by simp only [List.length_append, List.length_singleton]; omega)]

theorem chomp_strlen (r : Bytes) (h0 : r.head? ≠ some 0) (hne : r ≠ []) :
    strlen ((r ++ [0]).set (strlen r - 1) 0) = strlen r - 1 := by
  have hpos := strlen_pos_of_head r h0 hne
  apply strlen_set
  rw [strlen_append_nul]
  omega

theorem chomp_text (l : Bytes) (h : 0 ∉ l) : chomp (l ++ [10]) = some (l ++ [0, 0]) := by
  have hmem : 0 ∉ l ++ [10] := by simp [h]
  have hs : strlen (l ++ [10]) = l.length + 1 := by
    rw [strlen_of_not_mem _ hmem]; simp
  rw [chomp_eq _ (by cases l with
    | nil => simp
    | cons b bs => intro e; apply h; simp at e; simp [e]) (by simp), hs]
  simp only [Nat.add_sub_cancel, List.append_assoc, List.singleton_append]
  rw [List.set_append_right _ _ (by omega)]
  simp

theorem readBytes_strlen (buf : Bytes) : readBytes buf (strlen buf) = some (cstr buf) := by
  unfold readBytes cstr
  rw [if_pos (strlen_le_length buf)]

theorem pass2hash160_eq (X : Ext) (g : Globals) (pass : Bytes) (n : Nat) (h : n ≤ pass.length) :
    pass2hash160 X g pass n
      = some (priv2hash160 X { g with hash256 := X.sha256 (pass.take n) } (X.sha256 (pass.take n))) := by
  unfold pass2hash160 readBytes
  rw [if_pos h]

theorem hexpass2hash160_eq (X : Ext) (g : Globals) (hpass : Bytes) (n : Nat)
    (h : n / 2 ≤ g.unhexed.length) :
    ∃ g1, hexpass2hash160 X g hpass n = some (0, g1) ∧ g1.unhexed.length = g.unhexed.length := by
  unfold hexpass2hash160
  have h2 : n >>> 1 = n / 2 := by rw [Nat.shiftRight_eq_div_pow, pow_one]
  rw [h2, pass2hash160_eq _ _ _ _ (by simp only [X.unhex_length]; exact h)]
  exact ⟨_, rfl, by simp only [priv2hash160_unhexed, X.unhex_length]⟩

theorem kdfpass2hash160_defined (kdf : Bytes → Bytes → Int × Bytes) (X : Ext) (k : Kdf)
    (g : Globals) (buf : Bytes) (hbuf : strlen buf < buf.length) :
    ∃ res, kdfpass2hash160 kdf X k g buf (strlen buf) = some res ∧ res.buf = buf
      ∧ res.g.unhexed = g.unhexed := by
  unfold kdfpass2hash160
  rw [readBytes_strlen]
  simp only
  split
  · exact ⟨_, rfl, rfl, rfl⟩
  · unfold writeByte
    rw [if_pos hbuf, set_strlen buf hbuf]
    exact ⟨_, rfl, rfl, rfl⟩

theorem kdfsalt2hash160_defined (kdf : Bytes → Bytes → Int × Bytes) (X : Ext) (k : Kdf)
    (g : Globals) (buf : Bytes) (hbuf : strlen buf < buf.length) :
    ∃ res, kdfsalt2hash160 kdf X k g buf (strlen buf) = some res ∧ res.buf = buf
      ∧ res.g.unhexed = g.unhexed := by
  unfold kdfsalt2hash160
  rw [readBytes_strlen]
  simp only
  split
  · exact ⟨_, rfl, rfl, rfl⟩
  · unfold writeByte
    rw [if_pos hbuf, set_strlen buf hbuf]
    exact ⟨_, rfl, rfl, rfl⟩

theorem brainv2pass2hash160_defined (X : Ext) (k : Kdf)
    (g : Globals) (buf : Bytes) (hbuf : strlen buf < buf.length) :
    ∃ res, brainv2pass2hash160 X k g buf (strlen buf) = some res ∧ res.buf = buf
      ∧ res.g.unhexed = g.unhexed := by
  unfold brainv2pass2hash160
  rw [readBytes_strlen]
  simp only
  split
  · exact ⟨_, rfl, rfl, rfl⟩
  · unfold writeByte
    rw [if_pos hbuf, set_strlen buf hbuf]
    simp only
    rw [pass2hash160_eq _ _ _ _ (by rw [X.brainv2_length]; omega)]
    exact ⟨_, rfl, rfl, rfl⟩

theorem brainv2salt2hash160_defined (X : Ext) (k : Kdf)
    (g : Globals) (buf : Bytes) (hbuf : strlen buf < buf.length) :
    ∃ res, brainv2salt2hash160 X k g buf (strlen buf) = some res ∧ res.buf = buf
      ∧ res.g.unhexed = g.unhexed := by
  unfold brainv2salt2hash160
  rw [readBytes_strlen]
  simp only
  split
  · exact ⟨_, rfl, rfl, rfl⟩
  · unfold writeByte
    rw [if_pos hbuf, set_strlen buf hbuf]
    simp only
    rw [pass2hash160_eq _ _ _ _ (by rw [X.brainv2_length]; omega)]
    exact ⟨_, rfl, rfl, rfl⟩

theorem input2hash160_defined (X : Ext) (k : Kdf) (t : Transform) (g : Globals) (buf : Bytes)
    (hbuf : strlen buf < buf.length)
    (hhex : t = .hexpass → strlen buf / 2 ≤ g.unhexed.length) :
    ∃ res, input2hash160 X k t g buf (strlen buf) = some res ∧ res.buf = buf
      ∧ res.g.unhexed.length = g.unhexed.length := by
  cases t with
  | pass =>
    unfold input2hash160
    rw [pass2hash160_eq _ _ _ _ (strlen_le_length buf)]
    exact ⟨_, rfl, rfl, rfl⟩
  | hexpass =>
    obtain ⟨g1, h1, h2⟩ := hexpass2hash160_eq X g buf (strlen buf) (hhex rfl)
    unfold input2hash160
    rw [h1]
    exact ⟨_, rfl, rfl, h2⟩
  | hexpriv =>
    unfold input2hash160
    exact ⟨_, rfl, rfl, by simp only [hexpriv2hash160, priv2hash160_unhexed, X.unhex_length]⟩
  | warppass =>
    obtain ⟨res, h1, h2, h3⟩ := kdfpass2hash160_defined X.warpwallet X k g buf hbuf
    exact ⟨res, h1, h2, by rw [h3]⟩
  | bwiopass =>
    obtain ⟨res, h1, h2, h3⟩ := kdfpass2hash160_defined X.brainwalletio X k g buf hbuf
    exact ⟨res, h1, h2, by rw [h3]⟩
  | brainv2pass =>
    obtain ⟨res, h1, h2, h3⟩ := brainv2pass2hash160_defined X k g buf hbuf
    exact ⟨res, h1, h2, by rw [h3]⟩
  | warpsalt =>
    obtain ⟨res, h1, h2, h3⟩ := kdfsalt2hash160_defined X.warpwallet X k g buf hbuf
    exact ⟨res, h1, h2, by rw [h3]⟩
  | bwiosalt =>
    obtain ⟨res, h1, h2, h3⟩ := kdfsalt2hash160_defined X.brainwalletio X k g buf hbuf
    exact ⟨res, h1, h2, by rw [h3]⟩
  | brainv2salt =>
    obtain ⟨res, h1, h2, h3⟩ := brainv2salt2hash160_defined X k g buf hbuf
    exact ⟨res, h1, h2, by rw [h3]⟩

/-! ### One pass of the loop -/

theorem toInt32_of_range (n : Int) (h0 : 0 ≤ n) (h1 : n < 2147483648) : toInt32 n = n := by
  unfold toInt32
  omega

theorem telemetry_keeps (c : Ctx) (s : LoopState) (lr : Int) :
    (telemetry c s lr).1.ofile = s.ofile ∧ (telemetry c s lr).1.g = s.g
      ∧ (telemetry c s lr).1.olines = s.olines := by
  unfold telemetry
  simp only
  split <;> exact ⟨rfl, rfl, rfl⟩

theorem telemetry_goes_on (c : Ctx) (s : LoopState) (lr : Int) (h : 0 ≤ lr) :
    (telemetry c s lr).2 = true := by
  unfold telemetry
  simp only
  split
  · simp only [decide_eq_true_eq]; omega
  · rfl

theorem finishPass_keeps (c : Ctx) (s : LoopState) (lr : Int) (h : 0 ≤ lr) :
    ∃ s1, finishPass c lr s = (s1, true) ∧ s1.ofile = s.ofile ∧ s1.g = s.g
      ∧ s1.olines = s.olines := by
  unfold finishPass
  split
  · obtain ⟨h1, h2, h3⟩ := telemetry_keeps c s lr
    exact ⟨(telemetry c s lr).1, Prod.ext rfl (telemetry_goes_on c s lr h), h1, h2, h3⟩
  · exact ⟨s, rfl, rfl, rfl, rfl⟩

theorem lineBuf_eq (r : Bytes) (h0 : r.head? ≠ some 0) (hne : r ≠ []) :
    chomp r = some (lineBuf r) ∧ strlen (lineBuf r) = strlen r - 1
      ∧ strlen (lineBuf r) < (lineBuf r).length := by
  have h := chomp_eq r h0 hne
  have hs := chomp_strlen r h0 hne
  have hl := strlen_le_length r
  unfold lineBuf
  rw [h]
  refine ⟨rfl, hs, ?_⟩
  simp only [Option.getD_some, hs, List.length_set, List.length_append, List.length_singleton]
  omega

theorem iteration_line (c : Ctx) (s : LoopState) (r : Bytes) (hadm : Admissible c r)
    (hg : s.g.unhexed.length = 4096) :
    ∃ t s1, input2hash160 c.X c.kdf c.input2hash160 s.g (lineBuf r) (strlen (lineBuf r)) = some t
      ∧ t.buf = lineBuf r ∧ t.g.unhexed.length = 4096
      ∧ processLine c s r = some (emitRecords c s t)
      ∧ iteration c s (some r) = some (s1, true)
      ∧ s1.ofile = (emitRecords c s t).ofile ∧ s1.g = (emitRecords c s t).g
      ∧ s1.olines = (emitRecords c s t).olines := by
  obtain ⟨hne, hlen, h0, hhex⟩ := hadm
  obtain ⟨hc, hs, hlt⟩ := lineBuf_eq r h0 hne
  obtain ⟨t, ht, hbuf, hun⟩ := input2hash160_defined c.X c.kdf c.input2hash160 s.g (lineBuf r) hlt
    (fun e => by rw [hs, hg]; exact hhex e)
  have hpl : processLine c s r = some (emitRecords c s t) := by
    unfold processLine
    rw [hc]
    simp only [ht, Option.map_some']
  have hpos : 0 < r.length := List.length_pos.mpr hne
  have hlr : toInt32 ((r.length : Int) - 1) = (r.length : Int) - 1 :=
    toInt32_of_range _ (by omega) (by omega)
  obtain ⟨s1, hf, h1, h2, h3⟩ :=
    finishPass_keeps c (emitRecords c s t) ((r.length : Int) - 1) (by omega)
  refine ⟨t, s1, ht, hbuf, by rw [hun, hg], hpl, ?_, h1, h2, h3⟩
  unfold iteration
  simp only [hlr]
  rw [if_pos (by omega), hpl]
  simp only [Option.map_some', hf]

theorem emitRecords_g (c : Ctx) (s : LoopState) (t : TResult) : (emitRecords c s t).g = t.g := by
  unfold emitRecords
  cases c.bloom with
  | none => rfl
  | some b =>
    simp only
    split <;> split <;> rfl

theorem emitRecords_all (c : Ctx) (s : LoopState) (t : TResult) (hb : c.bloom = none) :
    (emitRecords c s t).ofile = s.ofile ++
      [fprintresult c.littleEndian t.g.hash160_uncmp 117 c.topt t.buf,
       fprintresult c.littleEndian t.g.hash160_compr 99 c.topt t.buf]
    ∧ (emitRecords c s t).olines = s.olines := by
  unfold emitRecords
  rw [hb]
  simp [emit]

theorem iteration_eof (c : Ctx) (s : LoopState) :
    ∃ s1, iteration c s none = some (s1, false) ∧ s1.ofile = s.ofile ∧ s1.g = s.g
      ∧ s1.olines = s.olines := by
  unfold iteration
  have h2 : toInt32 (-1 - 1) = -2 := by unfold toInt32; omega
  simp only [h2]
  rw [if_neg (by omega)]
  split
  · obtain ⟨h1, h2, h3⟩ := telemetry_keeps c s (-2)
    refine ⟨(telemetry c s (-2)).1, ?_, h1, h2, h3⟩
    have hb : (telemetry c s (-2)).2 = false := by
      unfold telemetry
      simp
    rw [← hb]
  · exact ⟨s, rfl, rfl, rfl, rfl⟩

/-! ### The whole loop -/

theorem hexDigits_length_le (f n : Nat) : (hexDigits f n).length ≤ f := by
  induction f generalizing n with
  | zero => simp [hexDigits]
  | succ f ih =>
    unfold hexDigits
    split
    · simp
    · have := ih (n / 16)
      simp only [List.length_append, List.length_singleton]
      omega

theorem fixedHex_zero (f : Nat) : fixedHex f 0 = List.replicate f 48 := by
  induction f with
  | zero => rfl
  | succ f ih =>
    simp only [fixedHex, Nat.zero_div, ih, Nat.zero_mod, hexdigit]
    simp [List.replicate_succ']

theorem hexDigits_pad (f n : Nat) (h : n < 16 ^ f) :
    List.replicate (f - (hexDigits f n).length) 48 ++ hexDigits f n = fixedHex f n := by
  induction f generalizing n with
  | zero => simp [hexDigits, fixedHex]
  | succ f ih =>
    unfold hexDigits
    by_cases h16 : n < 16
    · rw [if_pos h16]
      have h1 : n / 16 = 0 := by omega
      have h2 : n % 16 = n := by omega
      simp only [fixedHex, h1, h2, fixedHex_zero, List.length_singleton, Nat.add_sub_cancel]
    · rw [if_neg h16]
      have hlt : n / 16 < 16 ^ f := by
        rw [pow_succ] at h
        omega
      have hlen := hexDigits_length_le f (n / 16)
      have e : f + 1 - (hexDigits f (n / 16) ++ [hexdigit (n % 16)]).length
          = f - (hexDigits f (n / 16)).length := by
        simp only [List.length_append, List.length_singleton]
        omega
      rw [e, ← List.append_assoc, ih (n / 16) hlt]
      rfl

theorem fmt08x_word (a b c d : Nat) (ha : a < 256) (hb : b < 256) (hc : c < 256) (hd : d < 256) :
    fmt08x (16777216 * a + 65536 * b + 256 * c + d)
      = hexByte a ++ hexByte b ++ hexByte c ++ hexByte d := by
  unfold fmt08x
  rw [hexDigits_pad 8 _ (by norm_num; omega)]
  have e0 : (16777216 * a + 65536 * b + 256 * c + d) % 16 = d % 16 := by omega
  have e1 : (16777216 * a + 65536 * b + 256 * c + d) / 16 % 16 = d / 16 := by omega
  have e2 : (16777216 * a + 65536 * b + 256 * c + d) / 16 / 16 % 16 = c % 16 := by omega
  have e3 : (16777216 * a + 65536 * b + 256 * c + d) / 16 / 16 / 16 % 16 = c / 16 := by omega
  have e4 : (16777216 * a + 65536 * b + 256 * c + d) / 16 / 16 / 16 / 16 % 16 = b % 16 := by
    omega
  have e5 : (16777216 * a + 65536 * b + 256 * c + d) / 16 / 16 / 16 / 16 / 16 % 16 = b / 16 := by
    omega
  have e6 : (16777216 * a + 65536 * b + 256 * c + d) / 16 / 16 / 16 / 16 / 16 / 16 % 16
      = a % 16 := by omega
  have e7 : (16777216 * a + 65536 * b + 256 * c + d) / 16 / 16 / 16 / 16 / 16 / 16 / 16 % 16
      = a / 16 := by omega
  simp only [fixedHex, e0, e1, e2, e3, e4, e5, e6, e7, hexByte, List.nil_append,
    List.cons_append, List.singleton_append]

theorem ntohl_hash160_ul (le : Bool) (uc : Bytes) (i : Nat) (h : ∀ b ∈ uc, b < 256) :
    ntohl le (hash160_ul le uc i)
      = 16777216 * uc.getD (4 * i) 0 + 65536 * uc.getD (4 * i + 1) 0
        + 256 * uc.getD (4 * i + 2) 0 + uc.getD (4 * i + 3) 0 := by
  have hlt : ∀ k, uc.getD k 0 < 256 := by
    intro k
    rw [List.getD_eq_getElem?_getD]
    cases hk : uc[k]? with
    | none => simp
    | some v => simpa using h v (List.getElem?_mem hk)
  have h0 := hlt (4 * i)
  have h1 := hlt (4 * i + 1)
  have h2 := hlt (4 * i + 2)
  have h3 := hlt (4 * i + 3)
  cases le
  · simp [ntohl, hash160_ul]
  · simp only [ntohl, hash160_ul, if_true]
    omega

theorem length_twenty (d : Bytes) (h : d.length = 20) :
    ∃ a0 a1 a2 a3 a4 a5 a6 a7 a8 a9 a10 a11 a12 a13 a14 a15 a16 a17 a18 a19 : Nat,
      d = [a0, a1, a2, a3, a4, a5, a6, a7, a8, a9, a10, a11, a12, a13, a14, a15, a16, a17,
        a18, a19] := by
  rcases d with _ | ⟨a0, d⟩
  · simp at h
  rcases d with _ | ⟨a1, d⟩
  · simp at h
  rcases d with _ | ⟨a2, d⟩
  · simp at h
  rcases d with _ | ⟨a3, d⟩
  · simp at h
  rcases d with _ | ⟨a4, d⟩
  · simp at h
  rcases d with _ | ⟨a5, d⟩
  · simp at h
  rcases d with _ | ⟨a6, d⟩
  · simp at h
  rcases d with _ | ⟨a7, d⟩
  · simp at h
  rcases d with _ | ⟨a8, d⟩
  · simp at h
  rcases d with _ | ⟨a9, d⟩
  · simp at h
  rcases d with _ | ⟨a10, d⟩
  · simp at h
  rcases d with _ | ⟨a11, d⟩
  · simp at h
  rcases d with _ | ⟨a12, d⟩
  · simp at h
  rcases d with _ | ⟨a13, d⟩
  · simp at h
  rcases d with _ | ⟨a14, d⟩
  · simp at h
  rcases d with _ | ⟨a15, d⟩
  · simp at h
  rcases d with _ | ⟨a16, d⟩
  · simp at h
  rcases d with _ | ⟨a17, d⟩
  · simp at h
  rcases d with _ | ⟨a18, d⟩
  · simp at h
  rcases d with _ | ⟨a19, d⟩
  · simp at h
  rcases d with _ | ⟨b, d⟩
  · exact ⟨a0, a1, a2, a3, a4, a5, a6, a7, a8, a9, a10, a11, a12, a13, a14, a15, a16, a17, a18, a19, rfl⟩
  · simp at h

theorem isLowerHex_hexdigit (n : Nat) (h : n < 16) : isLowerHex (hexdigit n) := by
  unfold isLowerHex hexdigit
  split <;> omega

theorem hexOfBytes_chars (d : Bytes) (h : ∀ b ∈ d, b < 256) :
    ∀ ch ∈ hexOfBytes d, isLowerHex ch := by
  intro ch hch
  unfold hexOfBytes at hch
  rw [List.mem_flatMap] at hch
  obtain ⟨b, hb, hmem⟩ := hch
  have hb256 := h b hb
  simp only [hexByte, List.mem_cons, List.mem_singleton, List.not_mem_nil, or_false] at hmem
  rcases hmem with e | e <;> rw [e] <;> apply isLowerHex_hexdigit <;> omega

theorem hexOfBytes_length (d : Bytes) : (hexOfBytes d).length = 2 * d.length := by
  induction d with
  | nil => rfl
  | cons b bs ih =>
    have : hexOfBytes (b :: bs) = hexByte b ++ hexOfBytes bs := by
      simp [hexOfBytes]
    rw [this, List.length_append, ih]
    simp only [hexByte, List.length_cons, List.length_nil]
    omega

theorem fprintresult_eq (le : Bool) (d : Bytes) (p : Nat) (t s : Bytes)
    (hd : d.length = 20) (hb : ∀ b ∈ d, b < 256) :
    fprintresult le d p t s = hexOfBytes d ++ [58, p, 58] ++ cstr t ++ [58] ++ cstr s ++ [10] := by
  unfold fprintresult
  simp only [ntohl_hash160_ul le d _ hb]
  obtain ⟨a0, a1, a2, a3, a4, a5, a6, a7, a8, a9, a10, a11, a12, a13, a14, a15, a16, a17,
    a18, a19, rfl⟩ := length_twenty d hd
  simp only [List.mem_cons, List.mem_singleton, List.not_mem_nil, or_false, forall_eq_or_imp,
    forall_eq] at hb
  obtain ⟨h0, h1, h2, h3, h4, h5, h6, h7, h8, h9, h10, h11, h12, h13, h14, h15, h16, h17,
    h18, h19⟩ := hb
  have w0 := fmt08x_word a0 a1 a2 a3 h0 h1 h2 h3
  have w1 := fmt08x_word a4 a5 a6 a7 h4 h5 h6 h7
  have w2 := fmt08x_word a8 a9 a10 a11 h8 h9 h10 h11
  have w3 := fmt08x_word a12 a13 a14 a15 h12 h13 h14 h15
  have w4 := fmt08x_word a16 a17 a18 a19 h16 h17 h18 h19
  simp only [List.getD_cons_zero, List.getD_cons_succ, Nat.mul_zero, Nat.mul_one, Nat.zero_add,
    Nat.reduceMul, Nat.reduceAdd, w0, w1, w2, w3, w4]
  simp [hexOfBytes, hexByte]

theorem mask_double (k : Nat) (hk : k ≤ 64) :
    ((2 ^ k - 1) <<< 1) % 18446744073709551616 ||| 1
      = min (2 * (2 ^ k - 1) + 1) 18446744073709551615 := by
  interval_cases k <;> rfl

theorem mask_double_form (k : Nat) (hk : k ≤ 64) :
    min (2 * (2 ^ k - 1) + 1) 18446744073709551615 = 2 ^ (min (k + 1) 64) - 1 := by
  interval_cases k <;> rfl

theorem mask_half_form (k : Nat) : (2 ^ k - 1) / 2 = 2 ^ (k - 1) - 1 := by
  cases k with
  | zero => rfl
  | succ n =>
    have : 0 < 2 ^ n := Nat.two_pow_pos n
    simp only [Nat.add_sub_cancel, pow_succ]
    omega

theorem telemetry_mask (c : Ctx) (s : LoopState) (lr : Int) (k : Nat) (hk : k ≤ 64)
    (hm : s.report_mask = 2 ^ k - 1) :
    ((telemetry c s lr).1.stderr.length = s.stderr.length + 1
        ↔ (lr < 0 ∨ (s.ilines_curr + 1) % 18446744073709551616 % 2 ^ k = 0))
    ∧ ((telemetry c s lr).1.stderr.length = s.stderr.length + 1 →
        (telemetry c s lr).1.report_mask =
          if (getns (c.clock s.clockCalls) + 18446744073709551616 - s.time_last)
              % 18446744073709551616 < 2500000000 then
            min (2 * s.report_mask + 1) 18446744073709551615
          else if (getns (c.clock s.clockCalls) + 18446744073709551616 - s.time_last)
              % 18446744073709551616 > 10000000000 then
            s.report_mask / 2
          else s.report_mask)
    ∧ (¬ (telemetry c s lr).1.stderr.length = s.stderr.length + 1 →
        (telemetry c s lr).1.report_mask = s.report_mask)
    ∧ ∃ k1, k1 ≤ 64 ∧ (telemetry c s lr).1.report_mask = 2 ^ k1 - 1 := by
  have hand : (s.ilines_curr + 1) % 18446744073709551616 &&& s.report_mask
      = (s.ilines_curr + 1) % 18446744073709551616 % 2 ^ k := by
    rw [hm, Nat.and_pow_two_sub_one_eq_mod]
  unfold telemetry
  simp only [hand]
  by_cases hrep : lr < 0 ∨ (s.ilines_curr + 1) % 18446744073709551616 % 2 ^ k = 0
  · rw [if_pos hrep]
    simp only [List.length_append, List.length_singleton, true_iff, forall_true_left,
      not_true_eq_false, false_implies, true_and]
    refine ⟨hrep, ?_, ?_⟩
    · rw [hm, mask_double k hk, Nat.shiftRight_eq_div_pow, pow_one]
    · rw [hm, mask_double k hk, mask_double_form k hk, Nat.shiftRight_eq_div_pow, pow_one,
        mask_half_form]
      split
      · exact ⟨min (k + 1) 64, by omega, rfl⟩
      · split
        · exact ⟨k - 1, by omega, rfl⟩
        · exact ⟨k, hk, rfl⟩
  · rw [if_neg hrep]
    simp only [Nat.self_eq_add_right, one_ne_zero, false_iff, false_implies,
      not_false_eq_true, forall_true_left, true_and]
    exact ⟨hrep, k, hk, hm⟩

/-! ### Text lines -/

theorem textLine_admissible (c : Ctx) (l : Bytes) (h : TextLine c l) :
    Admissible c (l ++ [10]) := by
  obtain ⟨h0, _, hlen, hhex⟩ := h
  have hmem : 0 ∉ l ++ [10] := by simp [h0]
  refine ⟨by simp, by simp only [List.length_append, List.length_singleton]; omega, ?_, ?_⟩
  · cases l with
    | nil => simp
    | cons b bs =>
      intro e
      apply h0
      simp at e
      simp [e]
  · intro e
    rw [strlen_of_not_mem _ hmem]
    simpa using hhex e

theorem lineBuf_text (l : Bytes) (h : 0 ∉ l) : lineBuf (l ++ [10]) = l ++ [0, 0] := by
  unfold lineBuf
  rw [chomp_text l h]
  rfl

theorem strlen_text (l : Bytes) (h : 0 ∉ l) : strlen (l ++ [0, 0]) = l.length := by
  rw [strlen_append_nul, strlen_of_not_mem l h]

theorem readBytes_text (l : Bytes) : readBytes (l ++ [0, 0]) l.length = some l := by
  unfold readBytes
  rw [if_pos (by simp)]
  simp

theorem fprintresult_record (le : Bool) (h : Bytes) (p : Nat) (t b : Bytes) :
    fprintresult le h p t b = record le h p (cstr t) (cstr b) := rfl

theorem getlines_line (l rest : Bytes) (h : 10 ∉ l) :
    getlines (l ++ 10 :: rest) = (l ++ [10]) :: getlines rest := by
  induction l with
  | nil => simp [getlines]
  | cons b bs ih =>
    have hb : b ≠ 10 := fun e => h (by simp [e])
    have hbs : 10 ∉ bs := fun e => h (List.mem_cons_of_mem _ e)
    have e : getlines (b :: (bs ++ 10 :: rest))
        = match getlines (bs ++ 10 :: rest) with
          | [] => [[b]]
          | l :: ls => (b :: l) :: ls := by
      simp [getlines, hb]
    rw [List.cons_append, e, ih hbs]
    rfl

theorem getlines_streamOf (lines : List Bytes) (h : ∀ l ∈ lines, 10 ∉ l) :
    getlines (streamOf lines) = lines.map fun l => l ++ [10] := by
  induction lines with
  | nil => rfl
  | cons l ls ih =>
    have h1 : streamOf (l :: ls) = l ++ 10 :: streamOf ls := by
      simp [streamOf]
    rw [h1, getlines_line l _ (h l (List.mem_cons_self _ _)),
      ih (fun x hx => h x (List.mem_cons_of_mem _ hx))]
    rfl

/-! ### The digests a transform leaves -/

theorem take_set_take (m : Bytes) (v : Nat) :
    ((m.take 65).set 0 v).take 33 = (m.set 0 v).take 33 := by
  cases m with
  | nil => rfl
  | cons a as =>
    simp only [List.take_succ_cons, List.set_cons_zero, List.take_take]
    rfl

theorem getD_take (m : Bytes) : (m.take 65).getD 64 0 = m.getD 64 0 := by
  simp [List.getElem?_take]

theorem priv2hash160_pinned (X : Ext) (g : Globals) (priv : Bytes) :
    (priv2hash160 X g priv).2.hash160_uncmp = hash160 X (pubkeyBytes X g.mem priv)
    ∧ (priv2hash160 X g priv).2.hash160_compr
        = hash160 X (compressedKey (pubkeyBytes X g.mem priv)) := by
  unfold priv2hash160 hash160 compressedKey pubkeyBytes
  simp only [take_digest32, take_digest20, take_set_take, getD_take, and_self]

theorem kdfpass2hash160_text (kdf : Bytes → Bytes → Int × Bytes) (X : Ext) (k : Kdf)
    (g : Globals) (l : Bytes) (res : TResult)
    (h : kdfpass2hash160 kdf X k g (l ++ [0, 0]) l.length = some res) :
    res.ret = (kdf l (k.kdfsalt.take k.kdfsalt_sz)).1
    ∧ (res.ret = 0 →
        res.g = (priv2hash160 X { g with hash256 := (kdf l (k.kdfsalt.take k.kdfsalt_sz)).2 }
          (kdf l (k.kdfsalt.take k.kdfsalt_sz)).2).2) := by
  unfold kdfpass2hash160 at h
  rw [readBytes_text] at h
  simp only at h
  split at h
  · next hne =>
    simp only [Option.some.injEq] at h
    rw [← h]
    exact ⟨rfl, fun e => absurd e hne⟩
  · next he =>
    have he0 : (kdf l (k.kdfsalt.take k.kdfsalt_sz)).1 = 0 := by
      by_contra hc; exact he hc
    split at h
    · exact absurd h (by simp)
    · simp only [Option.some.injEq] at h
      rw [← h]
      exact ⟨by rw [he0]; rfl, fun _ => rfl⟩

theorem kdfsalt2hash160_text (kdf : Bytes → Bytes → Int × Bytes) (X : Ext) (k : Kdf)
    (g : Globals) (l : Bytes) (res : TResult)
    (h : kdfsalt2hash160 kdf X k g (l ++ [0, 0]) l.length = some res) :
    res.ret = (kdf (k.kdfpass.take k.kdfpass_sz) l).1
    ∧ (res.ret = 0 →
        res.g = (priv2hash160 X { g with hash256 := (kdf (k.kdfpass.take k.kdfpass_sz) l).2 }
          (kdf (k.kdfpass.take k.kdfpass_sz) l).2).2) := by
  unfold kdfsalt2hash160 at h
  rw [readBytes_text] at h
  simp only at h
  split at h
  · next hne =>
    simp only [Option.some.injEq] at h
    rw [← h]
    exact ⟨rfl, fun e => absurd e hne⟩
  · next he =>
    have he0 : (kdf (k.kdfpass.take k.kdfpass_sz) l).1 = 0 := by
      by_contra hc; exact he hc
    split at h
    · exact absurd h (by simp)
    · simp only [Option.some.injEq] at h
      rw [← h]
      exact ⟨by rw [he0]; rfl, fun _ => rfl⟩

theorem brainv2pass2hash160_text (X : Ext) (k : Kdf) (g : Globals) (l : Bytes) (res : TResult)
    (h : brainv2pass2hash160 X k g (l ++ [0, 0]) l.length = some res) :
    res.ret = (X.brainv2 l (k.kdfsalt.take k.kdfsalt_sz)).1
    ∧ (res.ret = 0 →
        res.g = (priv2hash160 X
          { g with hash256 := X.sha256 ((X.brainv2 l (k.kdfsalt.take k.kdfsalt_sz)).2.take 32) }
          (X.sha256 ((X.brainv2 l (k.kdfsalt.take k.kdfsalt_sz)).2.take 32))).2) := by
  unfold brainv2pass2hash160 at h
  rw [readBytes_text] at h
  simp only at h
  split at h
  · next hne =>
    simp only [Option.some.injEq] at h
    rw [← h]
    exact ⟨rfl, fun e => absurd e hne⟩
  · next he =>
    have he0 : (X.brainv2 l (k.kdfsalt.take k.kdfsalt_sz)).1 = 0 := by
      by_contra hc; exact he hc
    split at h
    · exact absurd h (by simp)
    · rw [pass2hash160_eq _ _ _ _ (by rw [X.brainv2_length]; omega)] at h
      simp only [Option.some.injEq] at h
      rw [← h]
      exact ⟨by rw [he0]; rfl, fun _ => rfl⟩

theorem brainv2salt2hash160_text (X : Ext) (k : Kdf) (g : Globals) (l : Bytes) (res : TResult)
    (h : brainv2salt2hash160 X k g (l ++ [0, 0]) l.length = some res) :
    res.ret = (X.brainv2 (k.kdfpass.take k.kdfpass_sz) l).1
    ∧ (res.ret = 0 →
        res.g = (priv2hash160 X
          { g with hash256 := X.sha256 ((X.brainv2 (k.kdfpass.take k.kdfpass_sz) l).2.take 32) }
          (X.sha256 ((X.brainv2 (k.kdfpass.take k.kdfpass_sz) l).2.take 32))).2) := by
  unfold brainv2salt2hash160 at h
  rw [readBytes_text] at h
  simp only at h
  split at h
  · next hne =>
    simp only [Option.some.injEq] at h
    rw [← h]
    exact ⟨rfl, fun e => absurd e hne⟩
  · next he =>
    have he0 : (X.brainv2 (k.kdfpass.take k.kdfpass_sz) l).1 = 0 := by
      by_contra hc; exact he hc
    split at h
    · exact absurd h (by simp)
    · rw [pass2hash160_eq _ _ _ _ (by rw [X.brainv2_length]; omega)] at h
      simp only [Option.some.injEq] at h
      rw [← h]
      exact ⟨by rw [he0]; rfl, fun _ => rfl⟩

theorem input2hash160_text (X : Ext) (k : Kdf) (t : Transform) (g : Globals) (l : Bytes)
    (res : TResult) (h : input2hash160 X k t g (l ++ [0, 0]) l.length = some res) :
    res.ret = transformStatus X k t l
    ∧ (res.ret = 0 →
        res.g.hash160_uncmp
            = hash160 X (pubkeyBytes X g.mem (derivedScalar X k t g.unhexed l))
        ∧ res.g.hash160_compr
            = hash160 X (compressedKey (pubkeyBytes X g.mem (derivedScalar X k t g.unhexed l)))) := by
  have htake : (l ++ [0, 0]).take l.length = l := by simp
  cases t with
  | pass =>
    unfold input2hash160 at h
    rw [pass2hash160_eq _ _ _ _ (by simp), htake] at h
    simp only [Option.map_some', Option.some.injEq] at h
    rw [← h]
    exact ⟨rfl, fun _ => priv2hash160_pinned X _ _⟩
  | hexpass =>
    unfold input2hash160 hexpass2hash160 at h
    have h2 : l.length >>> 1 = l.length / 2 := by rw [Nat.shiftRight_eq_div_pow, pow_one]
    simp only [h2] at h
    by_cases hle : l.length / 2 ≤ (X.unhex (l ++ [0, 0]) l.length g.unhexed 4096).length
    · rw [pass2hash160_eq _ _ _ _ hle] at h
      simp only [Option.map_some', Option.some.injEq] at h
      rw [← h]
      exact ⟨rfl, fun _ => priv2hash160_pinned X _ _⟩
    · unfold pass2hash160 readBytes at h
      rw [if_neg hle] at h
      exact absurd h (by simp)
  | hexpriv =>
    unfold input2hash160 hexpriv2hash160 at h
    simp only [Option.some.injEq] at h
    rw [← h]
    exact ⟨rfl, fun _ => priv2hash160_pinned X _ _⟩
  | warppass =>
    obtain ⟨h1, h2⟩ := kdfpass2hash160_text X.warpwallet X k g l res h
    refine ⟨h1, fun e => ?_⟩
    rw [h2 e]
    exact priv2hash160_pinned X _ _
  | bwiopass =>
    obtain ⟨h1, h2⟩ := kdfpass2hash160_text X.brainwalletio X k g l res h
    refine ⟨h1, fun e => ?_⟩
    rw [h2 e]
    exact priv2hash160_pinned X _ _
  | brainv2pass =>
    obtain ⟨h1, h2⟩ := brainv2pass2hash160_text X k g l res h
    refine ⟨h1, fun e => ?_⟩
    rw [h2 e]
    exact priv2hash160_pinned X _ _
  | warpsalt =>
    obtain ⟨h1, h2⟩ := kdfsalt2hash160_text X.warpwallet X k g l res h
    refine ⟨h1, fun e => ?_⟩
    rw [h2 e]
    exact priv2hash160_pinned X _ _
  | bwiosalt =>
    obtain ⟨h1, h2⟩ := kdfsalt2hash160_text X.brainwalletio X k g l res h
    refine ⟨h1, fun e => ?_⟩
    rw [h2 e]
    exact priv2hash160_pinned X _ _
  | brainv2salt =>
    obtain ⟨h1, h2⟩ := brainv2salt2hash160_text X k g l res h
    refine ⟨h1, fun e => ?_⟩
    rw [h2 e]
    exact priv2hash160_pinned X _ _

/-! ### A pass over a text line -/

theorem iteration_text (c : Ctx) (s : LoopState) (l : Bytes) (hl : TextLine c l)
    (hg : s.g.unhexed.length = 4096) :
    ∃ t s1, input2hash160 c.X c.kdf c.input2hash160 s.g (l ++ [0, 0]) l.length = some t
      ∧ t.buf = l ++ [0, 0] ∧ t.g.unhexed.length = 4096
      ∧ iteration c s (some (l ++ [10])) = some (s1, true)
      ∧ s1.ofile = (emitRecords c s t).ofile ∧ s1.g = t.g
      ∧ s1.olines = (emitRecords c s t).olines := by
  obtain ⟨t, s1, ht, hbuf, hun, _, hit, hof, hgg, hol⟩ :=
    iteration_line c s (l ++ [10]) (textLine_admissible c l hl) hg
  rw [lineBuf_text l hl.1, strlen_text l hl.1] at ht
  rw [lineBuf_text l hl.1] at hbuf
  exact ⟨t, s1, ht, hbuf, hun, hit, hof, by rw [hgg, emitRecords_g], hol⟩

theorem mainLoop_report_all_text (c : Ctx) (hb : c.bloom = none) :
    ∀ (lines : List Bytes) (s : LoopState), s.g.unhexed.length = 4096 →
      (∀ l ∈ lines, TextLine c l) →
      (∀ l ∈ lines, transformStatus c.X c.kdf c.input2hash160 l = 0) →
      ∃ s1, ∃ ds : List (Bytes × Bytes),
        mainLoop c s (lines.map fun l => l ++ [10]) = some s1
        ∧ ds.length = lines.length
        ∧ s1.ofile = s.ofile ++ (List.zip lines ds).flatMap (fun p =>
            [record c.littleEndian p.2.1 117 (cstr c.topt) p.1,
             record c.littleEndian p.2.2 99 (cstr c.topt) p.1])
        ∧ (∀ p ∈ List.zip lines ds, ∃ mem unhexed : Bytes,
            p.2.1 = hash160 c.X (pubkeyBytes c.X mem
              (derivedScalar c.X c.kdf c.input2hash160 unhexed p.1))
            ∧ p.2.2 = hash160 c.X (compressedKey (pubkeyBytes c.X mem
              (derivedScalar c.X c.kdf c.input2hash160 unhexed p.1))))
        ∧ s1.ofile.length = s.ofile.length + 2 * lines.length := by
  intro lines
  induction lines with
  | nil =>
    intro s _ _ _
    obtain ⟨s1, h1, h2, _, _⟩ := iteration_eof c s
    refine ⟨s1, [], ?_, rfl, by simp [h2], by simp, by simp [h2]⟩
    simp only [List.map_nil, mainLoop, h1, Option.map_some']
  | cons l ls ih =>
    intro s hg hl hs
    have hl0 := hl l (List.mem_cons_self _ _)
    obtain ⟨t, s1, ht, hbuf, hun, hit, hof, hgg, _⟩ := iteration_text c s l hl0 hg
    obtain ⟨hret, hpin⟩ := input2hash160_text c.X c.kdf c.input2hash160 s.g l t ht
    have hzero : t.ret = 0 := by rw [hret]; exact hs l (List.mem_cons_self _ _)
    obtain ⟨hall, _⟩ := emitRecords_all c s t hb
    obtain ⟨s2, ds, hml, hlen, hof2, hpins, hcnt⟩ :=
      ih s1 (by rw [hgg]; exact hun) (fun x hx => hl x (List.mem_cons_of_mem _ hx))
        (fun x hx => hs x (List.mem_cons_of_mem _ hx))
    refine ⟨s2, (t.g.hash160_uncmp, t.g.hash160_compr) :: ds, ?_, by simp [hlen], ?_, ?_, ?_⟩
    · simp only [List.map_cons, mainLoop, hit, hml]
    · rw [hof2, hof, hall, hbuf, fprintresult_record, fprintresult_record,
        cstr_append_nul l [0] hl0.1]
      simp
    · intro p hp
      simp only [List.zip_cons_cons, List.mem_cons] at hp
      rcases hp with e | hp
      · rw [e]
        exact ⟨s.g.mem, s.g.unhexed, (hpin hzero).1, (hpin hzero).2⟩
      · exact hpins p hp
    · rw [hcnt, hof, hall]
      simp only [List.length_append, List.length_cons, List.length_nil]
      omega

/-! ### Telemetry over a whole run -/

theorem two_pow_64 : (18446744073709551616 : Nat) = 2 ^ 64 := by norm_num

theorem mod_mod_two_pow (n k : Nat) (hk : k ≤ 64) :
    n % 18446744073709551616 % 2 ^ k = n % 2 ^ k := by
  rw [two_pow_64]
  exact Nat.mod_mod_of_dvd n (pow_dvd_pow 2 hk)

theorem telemetry_step (c : Ctx) (s : LoopState) (lr : Int) (k : Nat) (hk : k ≤ 64)
    (hm : s.report_mask = 2 ^ k - 1) :
    (telemetry c s lr).1.ilines_curr = (s.ilines_curr + 1) % 18446744073709551616
    ∧ ((telemetry c s lr).1.stderr.length = s.stderr.length + 1
        ↔ (lr < 0 ∨ (s.ilines_curr + 1) % 2 ^ k = 0))
    ∧ ((telemetry c s lr).1.stderr.length = s.stderr.length + 1 →
        (telemetry c s lr).1.report_mask = nextMask s.report_mask
          ((getns (c.clock s.clockCalls) + 18446744073709551616 - s.time_last)
            % 18446744073709551616)
        ∧ (telemetry c s lr).1.time_last = getns (c.clock s.clockCalls)
        ∧ (telemetry c s lr).1.clockCalls = s.clockCalls + 1)
    ∧ (¬ (telemetry c s lr).1.stderr.length = s.stderr.length + 1 →
        (telemetry c s lr).1.report_mask = s.report_mask
        ∧ (telemetry c s lr).1.stderr = s.stderr
        ∧ (telemetry c s lr).1.time_last = s.time_last
        ∧ (telemetry c s lr).1.clockCalls = s.clockCalls)
    ∧ (∃ k1, k1 ≤ 64 ∧ (telemetry c s lr).1.report_mask = 2 ^ k1 - 1)
    ∧ ((telemetry c s lr).2 = true ↔ 0 ≤ lr) := by
  obtain ⟨h1, h2, h3, h4⟩ := telemetry_mask c s lr k hk hm
  rw [mod_mod_two_pow _ k hk] at h1
  refine ⟨?_, h1, ?_, ?_, h4, ?_⟩
  · unfold telemetry
    simp only
    split <;> rfl
  · intro hrep
    refine ⟨by rw [h2 hrep]; rfl, ?_, ?_⟩
    · unfold telemetry at hrep ⊢
      simp only at hrep ⊢
      split
      · rfl
      · rw [if_neg (by assumption)] at hrep
        simp at hrep
    · unfold telemetry at hrep ⊢
      simp only at hrep ⊢
      split
      · rfl
      · rw [if_neg (by assumption)] at hrep
        simp at hrep
  · intro hno
    refine ⟨h3 hno, ?_⟩
    unfold telemetry at hno ⊢
    simp only at hno ⊢
    split
    · rw [if_pos (by assumption)] at hno
      simp at hno
    · exact ⟨rfl, rfl, rfl⟩
  · unfold telemetry
    simp only
    split
    · next hc =>
      simp only [decide_eq_true_eq]
      constructor
      · intro h; omega
      · intro h; omega
    · next hc =>
      simp only [true_iff]
      by_contra hneg
      exact hc (Or.inl (by omega))

theorem emitRecords_keeps (c : Ctx) (s : LoopState) (t : TResult) :
    (emitRecords c s t).report_mask = s.report_mask
    ∧ (emitRecords c s t).ilines_curr = s.ilines_curr
    ∧ (emitRecords c s t).stderr = s.stderr
    ∧ (emitRecords c s t).time_last = s.time_last
    ∧ (emitRecords c s t).clockCalls = s.clockCalls := by
  unfold emitRecords
  cases c.bloom with
  | none => exact ⟨rfl, rfl, rfl, rfl, rfl⟩
  | some b =>
    simp only
    split <;> split <;> exact ⟨rfl, rfl, rfl, rfl, rfl⟩

theorem processLine_keeps (c : Ctx) (s s1 : LoopState) (r : Bytes)
    (h : processLine c s r = some s1) :
    s1.report_mask = s.report_mask ∧ s1.ilines_curr = s.ilines_curr ∧ s1.stderr = s.stderr
    ∧ s1.time_last = s.time_last ∧ s1.clockCalls = s.clockCalls := by
  unfold processLine at h
  split at h
  · exact absurd h (by simp)
  · cases ht : input2hash160 c.X c.kdf c.input2hash160 s.g _ _ with
    | none => rw [ht] at h; exact absurd h (by simp)
    | some t =>
      rw [ht] at h
      simp only [Option.map_some', Option.some.injEq] at h
      rw [← h]
      exact emitRecords_keeps c s t

/-- In verbose mode a pass ends with the telemetry step, run on a state that has the
telemetry variables of the state before the pass; `line_read` is negative at end of input
and non-negative for a line of 1 to 2^31 bytes. -/
theorem iteration_verbose (c : Ctx) (s s1 : LoopState) (rd : Option Bytes) (b : Bool)
    (hv : c.vopt = true) (h : iteration c s rd = some (s1, b)) :
    ∃ (s2 : LoopState) (lr : Int), telemetry c s2 lr = (s1, b)
      ∧ s2.report_mask = s.report_mask ∧ s2.ilines_curr = s.ilines_curr
      ∧ s2.stderr = s.stderr ∧ s2.time_last = s.time_last ∧ s2.clockCalls = s.clockCalls
      ∧ (rd = none → lr < 0)
      ∧ (∀ r, rd = some r → r ≠ [] → r.length ≤ 2147483648 → 0 ≤ lr) := by
  unfold iteration at h
  cases rd with
  | none =>
    simp only at h
    have h2 : toInt32 (-1 - 1) = -2 := by unfold toInt32; omega
    rw [h2, if_neg (by omega), if_pos hv] at h
    simp only [Option.some.injEq] at h
    exact ⟨s, -2, h, rfl, rfl, rfl, rfl, rfl, fun _ => by omega, fun r e => by simp at e⟩
  | some r =>
    simp only at h
    by_cases hpos : toInt32 ((r.length : Int) - 1) > -1
    · rw [if_pos hpos] at h
      cases hp : processLine c s r with
      | none => rw [hp] at h; exact absurd h (by simp)
      | some s2 =>
        rw [hp] at h
        simp only [Option.map_some', Option.some.injEq] at h
        unfold finishPass at h
        rw [if_pos hv] at h
        obtain ⟨k1, k2, k3, k4, k5⟩ := processLine_keeps c s s2 r hp
        exact ⟨s2, _, h, k1, k2, k3, k4, k5, fun e => by simp at e, fun _ _ _ _ => by omega⟩
    · rw [if_neg hpos, if_pos hv] at h
      simp only [Option.some.injEq] at h
      refine ⟨s, _, h, rfl, rfl, rfl, rfl, rfl, fun e => by simp at e, ?_⟩
      intro r1 e hne hlen
      simp only [Option.some.injEq] at e
      subst e
      have hlen0 : 0 < r.length := List.length_pos.mpr hne
      have : toInt32 ((r.length : Int) - 1) = (r.length : Int) - 1 :=
        toInt32_of_range _ (by omega) (by omega)
      rw [this] at hpos
      omega

theorem pass_spec (c : Ctx) (s s1 : LoopState) (rd : Option Bytes) (b : Bool) (i : Nat)
    (hv : c.vopt = true) (h : iteration c s rd = some (s1, b))
    (hne : ∀ r, rd = some r → r ≠ [])
    (hi : s.ilines_curr = i % 18446744073709551616)
    (hc : s.clockCalls = s.stderr.length + 1)
    (ht : s.time_last = getns (c.clock s.stderr.length))
    (hm : ∃ k, k ≤ 64 ∧ s.report_mask = 2 ^ k - 1) :
    PassSpec c i (s, rd, s1)
    ∧ s1.ilines_curr = (i + 1) % 18446744073709551616
    ∧ s1.clockCalls = s1.stderr.length + 1
    ∧ s1.time_last = getns (c.clock s1.stderr.length)
    ∧ ∃ k, k ≤ 64 ∧ s1.report_mask = 2 ^ k - 1 := by
  obtain ⟨k, hk, hmk⟩ := hm
  obtain ⟨s2, lr, htel, e1, e2, e3, e4, e5, hnone, hline⟩ := iteration_verbose c s s1 rd b hv h
  obtain ⟨t1, t2, t3, t4, t5, _⟩ := telemetry_step c s2 lr k hk (by rw [e1, hmk])
  have hs1 : (telemetry c s2 lr).1 = s1 := by rw [htel]
  rw [hs1] at t1 t2 t3 t4 t5
  rw [e2, e3] at t2
  rw [e3, e1, e5, e4, hc] at t3
  rw [e3, e1, e4, e5] at t4
  have hcount : (s.ilines_curr + 1) % 2 ^ k = (i + 1) % 2 ^ k := by
    rw [hi, ← mod_mod_two_pow (i % 18446744073709551616 + 1) k hk,
      ← mod_mod_two_pow (i + 1) k hk]
    congr 1
    omega
  have hi1 : s1.ilines_curr = (i + 1) % 18446744073709551616 := by
    rw [t1, e2, hi]; omega
  rw [hcount] at t2
  have hinv : s1.clockCalls = s1.stderr.length + 1
      ∧ s1.time_last = getns (c.clock s1.stderr.length) := by
    by_cases hrep : s1.stderr.length = s.stderr.length + 1
    · obtain ⟨_, q2, q3⟩ := t3 hrep
      exact ⟨by rw [q3, hrep], by rw [q2, hrep]⟩
    · obtain ⟨_, q2, q3, q4⟩ := t4 hrep
      exact ⟨by rw [q4, q2, hc], by rw [q3, q2, ht]⟩
  refine ⟨?_, hi1, hinv.1, hinv.2, t5⟩
  refine ⟨hi, hi1, ht, k, hk, hmk, ?_, ?_, ?_, ?_, t5⟩
  · intro r e hlen
    have hpos := hline r e (hne r e) hlen
    rw [t2]
    constructor
    · intro hh
      rcases hh with hh | hh
      · omega
      · exact hh
    · intro hh; exact Or.inr hh
  · intro e
    exact t2.mpr (Or.inl (hnone e))
  · intro hrep
    obtain ⟨q1, q2, _⟩ := t3 hrep
    exact ⟨q1, q2⟩
  · intro hrep
    obtain ⟨q1, q2, q3, _⟩ := t4 hrep
    exact ⟨q1, q2, q3⟩

theorem loopPasses_spec (c : Ctx) (hv : c.vopt = true) :
    ∀ (lines : List Bytes) (s : LoopState) (i : Nat),
      (∀ r ∈ lines, r ≠ []) →
      s.ilines_curr = i % 18446744073709551616 →
      s.clockCalls = s.stderr.length + 1 →
      s.time_last = getns (c.clock s.stderr.length) →
      (∃ k, k ≤ 64 ∧ s.report_mask = 2 ^ k - 1) →
      ∀ (j : Nat) (p : LoopState × Option Bytes × LoopState),
        (loopPasses c s lines)[j]? = some p → PassSpec c (i + j) p := by
  intro lines
  induction lines with
  | nil =>
    intro s i _ hi hc ht hm j p hp
    unfold loopPasses at hp
    cases hit : iteration c s none with
    | none => rw [hit] at hp; simp at hp
    | some q =>
      obtain ⟨s1, b⟩ := q
      rw [hit] at hp
      cases j with
      | zero =>
        simp only [List.getElem?_cons_zero, Option.some.injEq] at hp
        rw [← hp]
        exact (pass_spec c s s1 none b i hv hit (fun r e => by simp at e) hi hc ht hm).1
      | succ j => simp at hp
  | cons r rs ih =>
    intro s i hne hi hc ht hm j p hp
    unfold loopPasses at hp
    cases hit : iteration c s (some r) with
    | none => rw [hit] at hp; simp at hp
    | some q =>
      obtain ⟨s1, b⟩ := q
      have hr : ∀ r1, some r = some r1 → r1 ≠ [] := by
        intro r1 e
        simp only [Option.some.injEq] at e
        rw [← e]
        exact hne r (List.mem_cons_self _ _)
      obtain ⟨hps, i1, c1, t1, m1⟩ := pass_spec c s s1 (some r) b i hv hit hr hi hc ht hm
      rw [hit] at hp
      cases b with
      | true =>
        cases j with
        | zero =>
          simp only [List.getElem?_cons_zero, Option.some.injEq] at hp
          rw [← hp]; exact hps
        | succ j =>
          simp only [List.getElem?_cons_succ] at hp
          have := ih s1 (i + 1) (fun x hx => hne x (List.mem_cons_of_mem _ hx)) i1 c1 t1 m1 j p hp
          rw [show i + (j + 1) = i + 1 + j by omega]
          exact this
      | false =>
        cases j with
        | zero =>
          simp only [List.getElem?_cons_zero, Option.some.injEq] at hp
          rw [← hp]; exact hps
        | succ j => simp at hp

theorem loopPasses_chain (c : Ctx) :
    ∀ (lines : List Bytes) (s : LoopState),
      (∀ p, (loopPasses c s lines)[0]? = some p → p.1 = s)
      ∧ ∀ (j : Nat) (p q : LoopState × Option Bytes × LoopState),
          (loopPasses c s lines)[j]? = some p → (loopPasses c s lines)[j + 1]? = some q →
          q.1 = p.2.2 := by
  intro lines
  induction lines with
  | nil =>
    intro s
    unfold loopPasses
    cases iteration c s none with
    | none => simp
    | some q =>
      obtain ⟨s1, b⟩ := q
      simp only [List.getElem?_cons_zero, Option.some.injEq]
      refine ⟨fun p hp => by rw [← hp], fun j p q _ hq => ?_⟩
      simp at hq
  | cons r rs ih =>
    intro s
    unfold loopPasses
    cases iteration c s (some r) with
    | none => simp
    | some q =>
      obtain ⟨s1, b⟩ := q
      cases b with
      | false =>
        simp only [List.getElem?_cons_zero, Option.some.injEq]
        refine ⟨fun p hp => by rw [← hp], fun j p q _ hq => ?_⟩
        simp at hq
      | true =>
        simp only [List.getElem?_cons_zero, Option.some.injEq, List.getElem?_cons_succ]
        refine ⟨fun p hp => by rw [← hp], fun j p q hp hq => ?_⟩
        cases j with
        | zero =>
          simp only [List.getElem?_cons_zero, Option.some.injEq] at hp
          rw [← hp]
          exact (ih s1).1 q hq
        | succ j =>
          simp only [List.getElem?_cons_succ] at hp
          exact (ih s1).2 j p q hp hq

theorem loopPasses_mainLoop (c : Ctx) :
    ∀ (lines : List Bytes) (s s1 : LoopState), mainLoop c s lines = some s1 →
      (loopPasses c s lines).getLast?.map (fun p => p.2.2) = some s1 := by
  intro lines
  induction lines with
  | nil =>
    intro s s1 h
    unfold mainLoop at h
    unfold loopPasses
    cases hit : iteration c s none with
    | none => rw [hit] at h; simp at h
    | some q =>
      obtain ⟨s2, b⟩ := q
      rw [hit] at h
      simpa using h
  | cons r rs ih =>
    intro s s1 h
    unfold mainLoop at h
    unfold loopPasses
    cases hit : iteration c s (some r) with
    | none => rw [hit] at h; simp at h
    | some q =>
      obtain ⟨s2, b⟩ := q
      rw [hit] at h
      cases b with
      | false => simpa using h
      | true =>
        simp only at h ⊢
        have h2 := ih s2 s1 h
        cases hl : loopPasses c s2 rs with
        | nil => rw [hl] at h2; simp at h2
        | cons x xs =>
          rw [hl] at h2
          rw [List.getLast?_cons_cons]
          exact h2

theorem getlines_ne_nil : ∀ (stream : Bytes), ∀ r ∈ getlines stream, r ≠ [] := by
  intro stream
  induction stream with
  | nil => intro r hr; simp [getlines] at hr
  | cons b bs ih =>
    intro r hr
    unfold getlines at hr
    split at hr
    · simp only [List.mem_cons] at hr
      rcases hr with e | hr
      · rw [e]; simp
      · exact ih r hr
    · cases hg : getlines bs with
      | nil =>
        rw [hg] at hr
        simp only [List.mem_singleton] at hr
        rw [hr]; simp
      | cons l ls =>
        rw [hg] at hr
        simp only [List.mem_cons] at hr
        rcases hr with e | hr
        · rw [e]; simp
        · exact ih r (by rw [hg]; exact List.mem_cons_of_mem _ hr)

theorem getElem?_getD (l : List α) (i : Nat) (d : α) (h : i < l.length) :
    l[i]? = some (l.getD i d) := by
  rw [List.getD_eq_getElem?_getD, List.getElem?_eq_getElem h]
  rfl

theorem iteration_over_long (c : Ctx) (s : LoopState) (r : Bytes) (hv : c.vopt = true)
    (h1 : 2147483648 < r.length) (h2 : r.length ≤ 4294967296) :
    iteration c s (some r) = some (telemetry c s ((r.length : Int) - 1 - 4294967296)) := by
  have hlr : toInt32 ((r.length : Int) - 1) = (r.length : Int) - 1 - 4294967296 := by
    unfold toInt32; omega
  unfold iteration
  simp only [hlr]
  rw [if_neg (by omega), if_pos hv]

theorem iteration_over_long_quiet (c : Ctx) (s : LoopState) (r : Bytes) (hv : c.vopt = false)
    (h1 : 2147483648 < r.length) (h2 : r.length ≤ 4294967296) :
    iteration c s (some r) = some (s, false) := by
  have hlr : toInt32 ((r.length : Int) - 1) = (r.length : Int) - 1 - 4294967296 := by
    unfold toInt32; omega
  unfold iteration
  simp only [hlr]
  rw [if_neg (by omega), if_neg (by simp [hv])]

theorem mainLoop_over_long_quiet (c : Ctx) (s : LoopState) (r : Bytes) (rs : List Bytes)
    (hv : c.vopt = false) (h1 : 2147483648 < r.length) (h2 : r.length ≤ 4294967296) :
    mainLoop c s (r :: rs) = some s := by
  simp only [mainLoop, iteration_over_long_quiet c s r hv h1 h2]

theorem long_line_length : (List.replicate 2147483648 97 ++ [10]).length = 2147483649 := by
  rw [List.length_append, List.length_replicate, List.length_singleton]

theorem initLoop_facts (vopt : Bool) (e : Env) :
    (initLoop vopt e).g.unhexed.length = 4096 ∧ (initLoop vopt e).ofile = [] := by
  cases vopt
  · exact ⟨List.length_replicate 4096 0, rfl⟩
  · exact ⟨List.length_replicate 4096 0, rfl⟩

/-! ## The claims -/

/-- C1: when the multiplication stores the 65 bytes `flag || x || y` (32-byte `x`, 32-byte
`y`), `priv2hash160` leaves RIPEMD160(SHA256(flag || x || y)) in `hash160_uncmp` and
RIPEMD160(SHA256(F || x)) in `hash160_compr`, with F = 2 when the last byte of `y` is even
and F = 3 when it is odd; both come from the one call of the multiplication and are
returned together. -/
theorem priv2hash160_digests (X : Ext) (g : Globals) (priv : Bytes) (flag : Nat) (x y : Bytes)
    (hx : x.length = 32) (hy : y.length = 32)
    (hP : (X.ec_pubkey_create_precomp (priv.take 32)).1 = flag :: x ++ y) :
    (priv2hash160 X g priv).2.hash160_uncmp = X.ripemd160 (X.sha256 (flag :: x ++ y)) ∧
    (priv2hash160 X g priv).2.hash160_compr =
      X.ripemd160 (X.sha256 ((if y.getD 31 0 % 2 = 0 then 2 else 3) :: x)) := by
  have h65 : (store g.mem (flag :: x ++ y)).take 65 = flag :: x ++ y := by
    unfold store
    rw [List.take_append_of_le_length (by simp [hx, hy])]
    exact List.take_of_length_le (by simp [hx, hy])
  have h64 : (store g.mem (flag :: x ++ y)).getD 64 0 = y.getD 31 0 := by
    unfold store
    simp only [List.cons_append, List.getD_cons_succ]
    rw [List.append_assoc, List.getD_append_right _ _ _ _ (by omega), hx,
      List.getD_append _ _ _ _ (by omega)]
  have h33 : ((store g.mem (flag :: x ++ y)).set 0 (2 ||| (y.getD 31 0 &&& 1))).take 33
      = (if y.getD 31 0 % 2 = 0 then 2 else 3) :: x := by
    unfold store
    simp only [List.cons_append, List.set_cons_zero, List.take_succ_cons, lor_two_and_one]
    rw [List.append_assoc, List.take_append_of_le_length (by omega)]
    rw [List.take_of_length_le (by omega)]
  simp only [priv2hash160, hP, h65, h64, h33, take_digest32, take_digest20, and_self]

/-- Witness of C1 on the stand-ins: scalar bytes 2, 3, ..., 33, whose last byte is odd. -/
theorem priv2hash160_digests_witness :
    (priv2hash160 demoExt demoGlobals ((List.range 32).map (· + 2))).2.hash160_uncmp
        = demoExt.ripemd160 (demoExt.sha256
            (4 :: (List.range 32).map (· + 2) ++ (List.range 32).map (· + 2)))
    ∧ (priv2hash160 demoExt demoGlobals ((List.range 32).map (· + 2))).2.hash160_compr
        = demoExt.ripemd160 (demoExt.sha256 (3 :: (List.range 32).map (· + 2))) :=
  priv2hash160_digests demoExt demoGlobals ((List.range 32).map (· + 2)) 4
    ((List.range 32).map (· + 2)) ((List.range 32).map (· + 2)) (by decide) (by decide)
    (by decide)

/-- C2: for a 20-byte digest `d`, a parity character `p`, a label `t` and a candidate `s`
(C strings: no NUL inside, a NUL after), `fprintresult` writes hex(d), `:`, `p`, `:`, `t`, `:`,
`s` and a newline, on either host byte order; hex(d) is the two-digit lowercase rendering of
`d[0]`, ..., `d[19]` in that order and has exactly 40 characters from `0-9a-f`. -/
theorem fprintresult_format (littleEndian : Bool) (d : Bytes) (p : Nat) (t s tail1 tail2 : Bytes)
    (hd : d.length = 20) (hb : ∀ b ∈ d, b < 256) (ht : 0 ∉ t) (hs : 0 ∉ s) :
    fprintresult littleEndian d p (t ++ 0 :: tail1) (s ++ 0 :: tail2)
        = hexOfBytes d ++ [58] ++ [p] ++ [58] ++ t ++ [58] ++ s ++ [10]
    ∧ hexOfBytes d = d.flatMap (fun b => [hexdigit (b / 16), hexdigit (b % 16)])
    ∧ (hexOfBytes d).length = 40
    ∧ ∀ ch ∈ hexOfBytes d, isLowerHex ch := by
  refine ⟨?_, rfl, ?_, hexOfBytes_chars d hb⟩
  · rw [fprintresult_eq littleEndian d p _ _ hd hb, cstr_append_nul t tail1 ht,
      cstr_append_nul s tail2 hs]
    simp
  · rw [hexOfBytes_length, hd]

/-- Witness of C2: digest bytes 0..19, parity `u`, label `str`, candidate `hello`, on a
big-endian host. -/
theorem fprintresult_format_witness :
    fprintresult false (List.range 20) 117 (ascii "str" ++ 0 :: []) (ascii "hello" ++ 0 :: [7])
        = hexOfBytes (List.range 20) ++ [58] ++ [117] ++ [58] ++ ascii "str" ++ [58]
            ++ ascii "hello" ++ [10]
    ∧ (hexOfBytes (List.range 20)).length = 40 :=
  ⟨(fprintresult_format false (List.range 20) 117 (ascii "str") (ascii "hello") [] [7]
      (by decide) (by decide) (by decide) (by decide)).1,
    (fprintresult_format false (List.range 20) 117 (ascii "str") (ascii "hello") [] [7]
      (by decide) (by decide) (by decide) (by decide)).2.2.1⟩

/-- C3, counterexample: without a filter, the line `a\0b` yields two records with an empty
candidate text; a last line `ab` without newline yields two records with the text `a`; and
a line of 2^31 bytes plus newline is taken for end of input, so that it and the line `a`
after it yield no record at all. -/
theorem report_all_text_lost :
    (mainLoop (demoCtx .pass "str" none false) (initLoop false demoEnv)
        (getlines [97, 0, 98, 10])).map (fun s => s.ofile)
      = some [ascii "e320202020202020202020202020202020202020:u:str:\n",
              ascii "0120202020202020202020202020202020202020:c:str:\n"]
    ∧ (mainLoop (demoCtx .pass "str" none false) (initLoop false demoEnv)
        (getlines (ascii "ab"))).map (fun s => s.ofile)
      = some [ascii "e320202020202020202020202020202020202020:u:str:a\n",
              ascii "8220202020202020202020202020202020202020:c:str:a\n"]
    ∧ (mainLoop (demoCtx .pass "str" none false) (initLoop false demoEnv)
        [List.replicate 2147483648 97 ++ [10], ascii "a\n"]).map (fun s => s.ofile)
      = some [] := by
  refine ⟨by decide!, by decide!, ?_⟩
  rw [mainLoop_over_long_quiet _ _ _ _ rfl (by rw [long_line_length]; omega)
    (by rw [long_line_length]; omega)]
  rfl

/-- C3, amended: without a filter, on a stream of n newline-terminated lines that have no
NUL byte, fewer than 2^31 bytes (with the hex-passphrase transform at most 8193) and on
which the transform returns 0, the loop ends having written exactly 2n records: for each
line in input order the `u` record and then the `c` record, each made of a digest in hex,
the parity, the label `topt` and the text of that line; the two digests are the hash160 of
the public key of the scalar derived from that line and of its compressed form. -/
theorem report_all_text_lines (c : Ctx) (e : Env) (lines : List Bytes) (hb : c.bloom = none)
    (hl : ∀ l ∈ lines, TextLine c l)
    (hs : ∀ l ∈ lines, transformStatus c.X c.kdf c.input2hash160 l = 0) :
    ∃ s1, ∃ ds : List (Bytes × Bytes),
      mainLoop c (initLoop c.vopt e) (getlines (streamOf lines)) = some s1
      ∧ ds.length = lines.length
      ∧ s1.ofile = (List.zip lines ds).flatMap (fun p =>
          [record c.littleEndian p.2.1 117 (cstr c.topt) p.1,
           record c.littleEndian p.2.2 99 (cstr c.topt) p.1])
      ∧ (∀ p ∈ List.zip lines ds, ∃ mem unhexed : Bytes,
          p.2.1 = hash160 c.X (pubkeyBytes c.X mem
            (derivedScalar c.X c.kdf c.input2hash160 unhexed p.1))
          ∧ p.2.2 = hash160 c.X (compressedKey (pubkeyBytes c.X mem
            (derivedScalar c.X c.kdf c.input2hash160 unhexed p.1))))
      ∧ s1.ofile.length = 2 * lines.length := by
  obtain ⟨hg, hof⟩ := initLoop_facts c.vopt e
  obtain ⟨s1, ds, h1, h2, h3, h4, h5⟩ :=
    mainLoop_report_all_text c hb lines (initLoop c.vopt e) hg hl hs
  rw [hof] at h3 h5
  refine ⟨s1, ds, ?_, h2, by simpa using h3, h4, by simpa using h5⟩
  rw [getlines_streamOf lines (fun l hl1 => (hl l hl1).2.1)]
  exact h1

/-- Witness of C3 (amended): the lines `a` and `b` through the plain-passphrase transform. -/
theorem report_all_text_lines_witness :
    ∃ s1, ∃ ds : List (Bytes × Bytes),
      mainLoop (demoCtx .pass "str" none false) (initLoop false demoEnv)
          (getlines (streamOf [ascii "a", ascii "b"])) = some s1
      ∧ ds.length = 2
      ∧ s1.ofile = (List.zip [ascii "a", ascii "b"] ds).flatMap (fun p =>
          [record true p.2.1 117 (cstr (ascii "str" ++ [0])) p.1,
           record true p.2.2 99 (cstr (ascii "str" ++ [0])) p.1])
      ∧ s1.ofile.length = 2 * 2 := by
  obtain ⟨s1, ds, h1, h2, h3, _, h5⟩ :=
    report_all_text_lines (demoCtx .pass "str" none false) demoEnv [ascii "a", ascii "b"] rfl
      (by decide) (by decide)
  exact ⟨s1, ds, h1, h2, h3, h5⟩

/-- C5, counterexample: the line `a\0b` (bytes 97, 0, 98) followed by a newline.  Line 425
turns the buffer into an empty C string, so the transform is handed zero bytes instead of
the three bytes of the line, and the line is treated like an empty line. -/
theorem candidate_with_nul_truncated :
    chomp [97, 0, 98, 10] = some [0, 0, 98, 10, 0]
    ∧ strlen [0, 0, 98, 10, 0] = 0
    ∧ readBytes [0, 0, 98, 10, 0] (strlen [0, 0, 98, 10, 0]) = some []
    ∧ (processLine (demoCtx .pass "str" none false) demoState [97, 0, 98, 10]).map
          (fun s => s.g.hash160_uncmp)
        = (processLine (demoCtx .pass "str" none false) demoState [10]).map
          (fun s => s.g.hash160_uncmp) := by
  decide!

/-- C5, amended: for a line without NUL bytes that ends with a newline and is shorter than
2^31 bytes, the transform is called with a buffer that starts with exactly the bytes of
the line and with exactly their count as length; this includes the empty line. -/
theorem candidate_is_line (c : Ctx) (s : LoopState) (l : Bytes) (h0 : 0 ∉ l)
    (hlen : l.length < 2147483648) :
    readBytes (l ++ [0, 0]) l.length = some l
    ∧ strlen (l ++ [0, 0]) = l.length
    ∧ iteration c s (some (l ++ [10]))
        = (input2hash160 c.X c.kdf c.input2hash160 s.g (l ++ [0, 0]) l.length).map
            (fun t => finishPass c l.length (emitRecords c s t)) := by
  have hs : strlen (l ++ [0, 0]) = l.length := by
    rw [strlen_append_nul, strlen_of_not_mem l h0]
  refine ⟨?_, hs, ?_⟩
  · unfold readBytes
    rw [if_pos (by simp)]
    simp
  · have hlr : toInt32 (((l ++ [10]).length : Int) - 1) = (l.length : Int) := by
      rw [toInt32_of_range _ (by simp) (by simp; omega)]
      simp
    unfold iteration
    simp only [hlr]
    rw [if_pos (by omega)]
    unfold processLine
    rw [chomp_text l h0]
    simp only [hs, Option.map_map]
    rfl

/-- Witness of C5 (amended): the line `ab`, and its three conclusions. -/
theorem candidate_is_line_witness :
    readBytes ([97, 98] ++ [0, 0]) 2 = some [97, 98]
    ∧ strlen ([97, 98] ++ [0, 0]) = 2
    ∧ iteration (demoCtx .pass "str" none false) demoState (some ([97, 98] ++ [10]))
        = (input2hash160 demoExt ⟨[], 0, [], 0⟩ .pass demoState.g ([97, 98] ++ [0, 0]) 2).map
            (fun t => finishPass (demoCtx .pass "str" none false) 2
              (emitRecords (demoCtx .pass "str" none false) demoState t)) :=
  candidate_is_line (demoCtx .pass "str" none false) demoState [97, 98] (by decide) (by decide)

/-- C6, counterexample: window size 20 on a machine with 851968 pages of 4096 bytes
(3.25 GiB).  3 * 2^20 KiB fits, yet the check fails with the capacity diagnostic. -/
theorem window_20_rejected :
    checkWindow 20 4096 851968 = some (.notEnoughRam 20)
    ∧ 3 * 1024 * 2 ^ 20 ≤ 4096 * 851968 := by
  decide

/-- C6, amended: the window check lets the run go on exactly when 1 <= w <= 28 and
3584 * 2^w bytes do not exceed the 64-bit product `mem_unit * totalram`; outside 1..28 the
run ends with status 1 and the window-size diagnostic, above the memory bound with status 1
and the capacity diagnostic, in both cases with no table call and no record; for w in 1..28
neither the shift in `int` nor the 64-bit product wraps. -/
theorem window_check (o : Opts) (e : Env) :
    (checkWindow o.wopt e.mem_unit e.totalram = none
      ↔ (1 ≤ o.wopt ∧ o.wopt ≤ 28
          ∧ 3584 * 2 ^ o.wopt.toNat ≤ (e.mem_unit * e.totalram) % 18446744073709551616))
    ∧ (o.wopt < 1 ∨ 28 < o.wopt →
        main o e = some ⟨1, some (.invalidWindowSize o.wopt), 0, [], []⟩)
    ∧ (1 ≤ o.wopt → o.wopt ≤ 28 →
        (e.mem_unit * e.totalram) % 18446744073709551616 < 3584 * 2 ^ o.wopt.toNat →
        main o e = some ⟨1, some (.notEnoughRam o.wopt), 0, [], []⟩)
    ∧ (1 ≤ o.wopt → o.wopt ≤ 28 →
        toInt32 (2 ^ o.wopt.toNat) = 2 ^ o.wopt.toNat
        ∧ 3584 * toU64 (toInt32 (2 ^ o.wopt.toNat)) < 18446744073709551616) := by
  have key : ∀ w : Int, 1 ≤ w → w ≤ 28 →
      toInt32 (2 ^ w.toNat) = 2 ^ w.toNat ∧ toU64 (toInt32 (2 ^ w.toNat)) = 2 ^ w.toNat
        ∧ 3584 * toU64 (toInt32 (2 ^ w.toNat)) < 18446744073709551616 := by
    intro w h1 h28
    obtain ⟨n, rfl⟩ := Int.eq_ofNat_of_zero_le (by omega : 0 ≤ w)
    have hn1 : 1 ≤ n := by omega
    have hn2 : n ≤ 28 := by omega
    simp only [Int.toNat_ofNat]
    interval_cases n <;> decide
  refine ⟨?_, ?_, ?_, fun h1 h28 => ⟨(key _ h1 h28).1, (key _ h1 h28).2.2⟩⟩
  · unfold checkWindow
    by_cases hw : o.wopt < 1 ∨ o.wopt > 28
    · rw [if_pos hw]
      constructor
      · intro h; exact absurd h (by simp)
      · intro h; omega
    · rw [if_neg hw]
      obtain ⟨_, k2, k3⟩ := key o.wopt (by omega) (by omega)
      simp only [k2]
      rw [Nat.mod_eq_of_lt (by rw [k2] at k3; exact k3)]
      constructor
      · intro h
        split at h
        · exact absurd h (by simp)
        · exact ⟨by omega, by omega, by omega⟩
      · intro h
        rw [if_neg (by omega)]
  · intro hw
    unfold main checkWindow
    rw [if_pos (by omega)]
    rfl
  · intro h1 h28 hlt
    obtain ⟨_, k2, k3⟩ := key o.wopt h1 h28
    unfold main checkWindow
    rw [if_neg (by omega)]
    simp only [k2]
    rw [Nat.mod_eq_of_lt (by rw [k2] at k3; exact k3), if_pos hlt]
    rfl

/-- Witness of C6 (amended): window size 20 on 851968 pages of 4096 bytes ends the run
with the capacity diagnostic before any table call. -/
theorem window_check_witness :
    main ⟨false, false, 20, none, none, none, none, none, none, none⟩
        ⟨demoExt, true, 4096, 851968, fun _ => none, fun _ => none, fun _ _ => true, [],
          fun _ _ => 0, fun n => (n, 0), [], 0, 0⟩
      = some ⟨1, some (.notEnoughRam 20), 0, [], []⟩ :=
  (window_check ⟨false, false, 20, none, none, none, none, none, none, none⟩
    ⟨demoExt, true, 4096, 851968, fun _ => none, fun _ => none, fun _ _ => true, [],
      fun _ _ => 0, fun n => (n, 0), [], 0, 0⟩).2.2.1 (by decide) (by decide) (by decide)

/-- C7, counterexample: the candidate `zz` is not hex, and both hex transforms return 0,
the success code. -/
theorem hex_zz_returns_zero :
    ¬ wellFormedHex (ascii "zz")
    ∧ (hexpass2hash160 demoExt demoGlobals (ascii "zz" ++ [0]) 2).map (fun p => p.1) = some 0
    ∧ (hexpriv2hash160 demoExt demoGlobals (ascii "zz" ++ [0]) 2).1 = 0 := by
  decide!

/-- C7, amended: `hexpriv2hash160` returns 0 for every candidate, `hexpass2hash160` returns 0
for every candidate whose half length is within the decode buffer, and never returns
anything else, whether or not the candidate is well-formed hex; with either transform
active the loop goes on to the next line. -/
theorem hex_transforms_return_zero (X : Ext) (g : Globals) (cand : Bytes) (n : Nat) :
    (hexpriv2hash160 X g cand n).1 = 0
    ∧ (n / 2 ≤ g.unhexed.length → ∃ g1, hexpass2hash160 X g cand n = some (0, g1))
    ∧ (∀ p, hexpass2hash160 X g cand n = some p → p.1 = 0)
    ∧ (∀ (c : Ctx) (s : LoopState) (r : Bytes),
        c.input2hash160 = .hexpass ∨ c.input2hash160 = .hexpriv → Admissible c r →
        s.g.unhexed.length = 4096 → ∃ s1, iteration c s (some r) = some (s1, true)) := by
  refine ⟨rfl, ?_, ?_, ?_⟩
  · intro h
    obtain ⟨g1, h1, _⟩ := hexpass2hash160_eq X g cand n h
    exact ⟨g1, h1⟩
  · intro p hp
    unfold hexpass2hash160 pass2hash160 at hp
    simp only at hp
    split at hp
    · exact absurd hp (by simp)
    · simp only [Option.some.injEq] at hp
      rw [← hp]
      rfl
  · intro c s r _ hadm hg
    obtain ⟨_, s1, _, _, _, _, hit, _⟩ := iteration_line c s r hadm hg
    exact ⟨s1, hit⟩

/-- Witness of C7 (amended): the candidate `zz` through the hex-passphrase transform. -/
theorem hex_transforms_return_zero_witness :
    ∃ g1, hexpass2hash160 demoExt demoGlobals (ascii "zz" ++ [0]) 2 = some (0, g1) :=
  (hex_transforms_return_zero demoExt demoGlobals (ascii "zz" ++ [0]) 2).2.1 (by decide!)

/-- C8, counterexample: for the all-zero scalar the multiplication reports failure and
`priv2hash160` still returns 0. -/
theorem zero_scalar_returns_zero :
    (demoExt.ec_pubkey_create_precomp ((List.replicate 32 0).take 32)).2 ≠ 0
    ∧ (priv2hash160 demoExt demoGlobals (List.replicate 32 0)).1 = 0 := by
  decide!

/-- C8, amended: `priv2hash160` returns 0 for every scalar and every answer of the
multiplication; the value the multiplication returns is not looked at. -/
theorem priv2hash160_returns_zero (X : Ext) (g : Globals) (priv : Bytes) :
    (priv2hash160 X g priv).1 = 0
    ∧ ∀ code : Bytes → Int,
        priv2hash160 { X with ec_pubkey_create_precomp := fun p =>
            ((X.ec_pubkey_create_precomp p).1, code p) } g priv = priv2hash160 X g priv :=
  ⟨rfl, fun _ => rfl⟩

/-- C9, evaluation at the failing input: lines `a` and `b` through the WarpWallet
transform whose KDF fails on `b`.  The transform returns -1 for `b`, and the loop still
writes records for `b`; they carry the digests derived from `a`.  Without a filter all
four records appear, with the stand-in filter the `u` record of `a` is repeated for `b`. -/
theorem failed_transform_still_reported :
    (input2hash160 demoExt ⟨[], 0, [], 0⟩ .warppass demoGlobals [98, 0] 1).map (fun t => t.ret)
        = some (-1)
    ∧ (mainLoop (demoCtx .warppass "warp" none false) demoState (getlines (ascii "a\nb\n"))).map
          (fun s => s.ofile)
        = some [ascii "5720202020202020202020202020202020202020:u:warp:a\n",
                ascii "3c20202020202020202020202020202020202020:c:warp:a\n",
                ascii "5720202020202020202020202020202020202020:u:warp:b\n",
                ascii "3c20202020202020202020202020202020202020:c:warp:b\n"]
    ∧ (mainLoop (demoCtx .warppass "warp" (some []) false) demoState
          (getlines (ascii "a\nb\n"))).map (fun s => s.ofile)
        = some [ascii "5720202020202020202020202020202020202020:u:warp:a\n",
                ascii "5720202020202020202020202020202020202020:u:warp:b\n"] := by
  decide!

/-- C10, counterexample: verbose run on the lines `a`, `b` and then a line of 2^31 bytes
plus newline, one second per clock reading.  After two passes the line count is 2 and the
mask is 2^2 - 1; the third pass takes the long line for end of input: it reports at line
count 3, which is no multiple of 2^2, and stops the loop. -/
theorem long_line_reported :
    ((loopPasses (demoCtx .pass "str" none true) (initLoop true demoEnv)
        (getlines (ascii "a\nb\n"))).getD 1
          (initLoop true demoEnv, none, initLoop true demoEnv)).2.2.ilines_curr = 2
    ∧ ((loopPasses (demoCtx .pass "str" none true) (initLoop true demoEnv)
        (getlines (ascii "a\nb\n"))).getD 1
          (initLoop true demoEnv, none, initLoop true demoEnv)).2.2.report_mask = 2 ^ 2 - 1
    ∧ ((loopPasses (demoCtx .pass "str" none true) (initLoop true demoEnv)
        (getlines (ascii "a\nb\n"))).getD 1
          (initLoop true demoEnv, none, initLoop true demoEnv)).2.2.stderr.length = 2
    ∧ (iteration (demoCtx .pass "str" none true)
        ((loopPasses (demoCtx .pass "str" none true) (initLoop true demoEnv)
          (getlines (ascii "a\nb\n"))).getD 1
            (initLoop true demoEnv, none, initLoop true demoEnv)).2.2
        (some (List.replicate 2147483648 97 ++ [10]))).map
          (fun p => (p.1.ilines_curr, p.1.stderr.length, p.2))
      = some (3, 3, false)
    ∧ ¬ 3 % 2 ^ 2 = 0 := by
  have h1 : ((loopPasses (demoCtx .pass "str" none true) (initLoop true demoEnv)
        (getlines (ascii "a\nb\n"))).getD 1
          (initLoop true demoEnv, none, initLoop true demoEnv)).2.2.ilines_curr = 2 := by
    decide!
  have h2 : ((loopPasses (demoCtx .pass "str" none true) (initLoop true demoEnv)
        (getlines (ascii "a\nb\n"))).getD 1
          (initLoop true demoEnv, none, initLoop true demoEnv)).2.2.report_mask = 2 ^ 2 - 1 := by
    decide!
  have h3 : ((loopPasses (demoCtx .pass "str" none true) (initLoop true demoEnv)
        (getlines (ascii "a\nb\n"))).getD 1
          (initLoop true demoEnv, none, initLoop true demoEnv)).2.2.stderr.length = 2 := by
    decide!
  refine ⟨h1, h2, h3, ?_, by decide⟩
  have hlen : (List.replicate 2147483648 97 ++ [10]).length = 2147483649 := by
    rw [List.length_append, List.length_replicate, List.length_singleton]
  generalize ((loopPasses (demoCtx .pass "str" none true) (initLoop true demoEnv)
        (getlines (ascii "a\nb\n"))).getD 1
          (initLoop true demoEnv, none, initLoop true demoEnv)).2.2 = s2 at h1 h2 h3 ⊢
  generalize List.replicate 2147483648 97 ++ [10] = long at hlen ⊢
  rw [iteration_over_long _ s2 long rfl (by omega) (by omega)]
  obtain ⟨t1, t2, _, _, _, t6⟩ :=
    telemetry_step (demoCtx .pass "str" none true) s2 ((long.length : Int) - 1 - 4294967296) 2
      (by decide) h2
  have hneg : (long.length : Int) - 1 - 4294967296 < 0 := by omega
  have hrep := t2.mpr (Or.inl hneg)
  have hstop : (telemetry (demoCtx .pass "str" none true) s2
      ((long.length : Int) - 1 - 4294967296)).2 = false := by
    cases hb : (telemetry (demoCtx .pass "str" none true) s2
      ((long.length : Int) - 1 - 4294967296)).2 with
    | false => rfl
    | true => have := t6.mp hb; omega
  rw [Option.map_some', t1, hrep, hstop, h1, h3]

/-- C10, amended: in verbose mode the mask is 0 before the first pass, and for every pass
of a run, `i` passes having been made before it: the line counter goes from `i` to `i + 1`;
the mask is 2^k - 1 before and 2^k1 - 1 after the pass (k, k1 at most 64); the pass reports
exactly when `i + 1` is a multiple of 2^k if it read a line of at most 2^31 bytes, and
always at end of input; at a report the mask becomes min(2*mask + 1, 2^64 - 1), mask / 2
or stays, by the interval between the clock reading of this report and that of the
previous one (the reading before the loop for the first report); without a report mask,
error stream and `time_last` do not change.  The passes start at the loop variables of
`main`, each starts where the previous one ended, and the last one ends in the state the
loop returns. -/
theorem report_mask_run (c : Ctx) (e : Env) (stream : Bytes) (hv : c.vopt = true)
    (hclk : c.clock = e.clock) :
    (initLoop true e).report_mask = 0
    ∧ (∀ p, (loopPasses c (initLoop true e) (getlines stream))[0]? = some p →
        p.1 = initLoop true e)
    ∧ (∀ (j : Nat) (p q : LoopState × Option Bytes × LoopState),
        (loopPasses c (initLoop true e) (getlines stream))[j]? = some p →
        (loopPasses c (initLoop true e) (getlines stream))[j + 1]? = some q → q.1 = p.2.2)
    ∧ (∀ s1, mainLoop c (initLoop true e) (getlines stream) = some s1 →
        (loopPasses c (initLoop true e) (getlines stream)).getLast?.map (fun p => p.2.2)
          = some s1)
    ∧ ∀ (i : Nat) (p : LoopState × Option Bytes × LoopState),
        (loopPasses c (initLoop true e) (getlines stream))[i]? = some p →
        p.1.ilines_curr = i % 18446744073709551616
        ∧ p.2.2.ilines_curr = (i + 1) % 18446744073709551616
        ∧ p.1.time_last = getns (c.clock p.1.stderr.length)
        ∧ ∃ k, k ≤ 64 ∧ p.1.report_mask = 2 ^ k - 1
          ∧ (∀ r, p.2.1 = some r → r.length ≤ 2147483648 →
              (p.2.2.stderr.length = p.1.stderr.length + 1 ↔ (i + 1) % 2 ^ k = 0))
          ∧ (p.2.1 = none → p.2.2.stderr.length = p.1.stderr.length + 1)
          ∧ (p.2.2.stderr.length = p.1.stderr.length + 1 →
              p.2.2.report_mask = nextMask p.1.report_mask
                ((getns (c.clock (p.1.stderr.length + 1)) + 18446744073709551616
                    - p.1.time_last) % 18446744073709551616)
              ∧ p.2.2.time_last = getns (c.clock (p.1.stderr.length + 1)))
          ∧ (¬ p.2.2.stderr.length = p.1.stderr.length + 1 →
              p.2.2.report_mask = p.1.report_mask ∧ p.2.2.stderr = p.1.stderr
              ∧ p.2.2.time_last = p.1.time_last)
          ∧ ∃ k1, k1 ≤ 64 ∧ p.2.2.report_mask = 2 ^ k1 - 1 := by
  refine ⟨rfl, (loopPasses_chain c _ _).1, (loopPasses_chain c _ _).2,
    loopPasses_mainLoop c _ _, ?_⟩
  intro i p hp
  have := loopPasses_spec c hv (getlines stream) (initLoop true e) 0 (getlines_ne_nil stream)
    rfl rfl (by rw [hclk]; rfl) ⟨0, by omega, rfl⟩ i p hp
  rw [Nat.zero_add] at this
  exact this

/-- Witness of C10 (amended): the second pass of the verbose run on the lines `a` and `b`
ends with line count 2. -/
theorem report_mask_run_witness :
    ((loopPasses (demoCtx .pass "str" none true) (initLoop true demoEnv)
        (getlines (ascii "a\nb\n"))).getD 1
          (initLoop true demoEnv, none, initLoop true demoEnv)).2.2.ilines_curr
      = (1 + 1) % 18446744073709551616 :=
  ((report_mask_run (demoCtx .pass "str" none true) demoEnv (ascii "a\nb\n") rfl rfl).2.2.2.2 1
    _ (getElem?_getD _ 1 _ (by decide!))).2.1

end Brainflayer
